import Mathlib

/-!
Verification of the claude-code-slack integration scripts.

This file gives a shallow embedding, in Lean 4, of the parts of the
repository that the verified claims are about:

* `commands/slack/slack_utils.py` — webhook URL validation and masking,
  message truncation, JSON configuration load/save, settings.json hook
  registration and removal;
* `commands/slack/setup_handler.py` — `create_configuration`;
* `hooks/stop-slack.py` and `hooks/posttooluse-slack.py` — `send_webhook`,
  `load_config`, transcript parsing, message construction, aggregation
  state, and the two hook `main` pipelines.

Python dictionaries that travel through `json.load`/`json.dump` are
modelled by the inductive type `Json` below; a JSON object is a list of
key/value pairs in insertion order (CPython dictionaries preserve
insertion order, so this is faithful).  Machine integers are modelled by
`Int`/`Nat`; file contents by explicit values passed in; the system clock
by an explicit `now : Int` parameter counting seconds.
-/

namespace SlackSpec

/-- JSON values, as produced by Python's `json.load`.  Objects keep their
key order (CPython dictionary insertion order).  Numbers are integers:
every number this code base reads or writes is an `int`. -/
inductive Json where
  | null : Json
  | bool : Bool → Json
  | num : Int → Json
  | str : String → Json
  | arr : List Json → Json
  | obj : List (String × Json) → Json
  deriving Repr

mutual

/-- Decidable equality for `Json` (hand rolled because of the nested lists). -/
def Json.beq : Json → Json → Bool
  | .null, .null => true
  | .bool a, .bool b => a == b
  | .num a, .num b => a == b
  | .str a, .str b => a == b
  | .arr a, .arr b => Json.beqList a b
  | .obj a, .obj b => Json.beqObj a b
  | _, _ => false

def Json.beqList : List Json → List Json → Bool
  | [], [] => true
  | a :: as, b :: bs => Json.beq a b && Json.beqList as bs
  | _, _ => false

def Json.beqObj : List (String × Json) → List (String × Json) → Bool
  | [], [] => true
  | (k, v) :: as, (l, w) :: bs => k == l && Json.beq v w && Json.beqObj as bs
  | _, _ => false

end

/-- Python dictionary lookup `d[k]` / `d.get(k)` on an object's field list:
the value of the first (and, in a real dictionary, only) binding of `k`. -/
def jlookup (kvs : List (String × Json)) (k : String) : Option Json :=
  match kvs with
  | [] => none
  | (k', v) :: rest => if k' = k then some v else jlookup rest k

/-- Python `d[k] = v`: replace the value in place if the key is present
(keeping its position, as CPython does), otherwise append the binding. -/
def jset (kvs : List (String × Json)) (k : String) (v : Json) : List (String × Json) :=
  match kvs with
  | [] => [(k, v)]
  | (k', v') :: rest =>
      if k' = k then (k', v) :: rest else (k', v') :: jset rest k v

/-- Python `base.update(override)` on dictionaries: each binding of
`override` is written into `base` in order. -/
def jupdate (base override : List (String × Json)) : List (String × Json) :=
  override.foldl (fun acc kv => jset acc kv.1 kv.2) base

/-- Python truthiness of a JSON value (`bool(x)`): `None`, `False`, `0`,
`""`, `[]` and `\x7b\x7d` are falsy, everything else truthy. -/
def pyTruthy : Json → Bool
  | .null => false
  | .bool b => b
  | .num n => n != 0
  | .str s => s ≠ ""
  | .arr xs => !xs.isEmpty
  | .obj kvs => !kvs.isEmpty

/-- `d.get(k, default)` with a JSON default. -/
def jget (kvs : List (String × Json)) (k : String) (dflt : Json) : Json :=
  (jlookup kvs k).getD dflt

/-!
## Webhook URL validation (`slack_utils.is_valid_webhook_url`)

The source matches two anchored regular expressions with `re.match`:

    ^https://hooks\.slack\.com/services/T[A-Z0-9]+/B[A-Z0-9]+/[a-zA-Z0-9]+$
    ^https://hooks\.slack\.com/workflows/T[A-Z0-9]+/A[A-Z0-9]+/[a-zA-Z0-9]+/[a-zA-Z0-9]+$

The matcher below implements these shapes structurally.  One Python
subtlety is embedded explicitly: in Python regular expressions (without
`re.MULTILINE`), `$` matches at the end of the string AND just before a
single newline at the end of the string, so `re.match` also accepts the
URL followed by one trailing `"\n"`.
-/

/-- `[A-Z0-9]` -/
def isUpperDigit (c : Char) : Bool := c.isUpper || c.isDigit

/-- `[a-zA-Z0-9]` -/
def isAlnum (c : Char) : Bool := c.isUpper || c.isLower || c.isDigit

/-- Consume an expected literal run of characters; return the remainder. -/
def dropLit : List Char → List Char → Option (List Char)
  | [], cs => some cs
  | _ :: _, [] => none
  | l :: ls, c :: cs => if c = l then dropLit ls cs else none

/-- Consume one or more characters satisfying `p`; return them and the rest. -/
def takeRun1 (p : Char → Bool) : List Char → Option (List Char × List Char)
  | [] => none
  | c :: cs =>
      if p c then
        match takeRun1 p cs with
        | some (run, rest) => some (c :: run, rest)
        | none => some ([c], cs)
      else none

/-- One `/`-separated segment of the form `lead` followed by one or more
characters satisfying `p` (the regex `lead[p]+`). -/
def segMatch (lead : Char) (p : Char → Bool) (cs : List Char) :
    Option (List Char × List Char) :=
  match cs with
  | [] => none
  | c :: rest =>
      if c = lead then
        match takeRun1 p rest with
        | some (run, rest') => some (c :: run, rest')
        | none => none
      else none

def servicesHead : List Char := "https://hooks.slack.com/services/".data

def workflowsHead : List Char := "https://hooks.slack.com/workflows/".data

/-- Anchored match of the services pattern, returning the three capture
groups `(T[A-Z0-9]+, B[A-Z0-9]+, [a-zA-Z0-9]+)`. -/
def servicesGroups (cs : List Char) : Option (String × String × String) :=
  match dropLit servicesHead cs with
  | none => none
  | some r1 =>
    match segMatch 'T' isUpperDigit r1 with
    | none => none
    | some (team, r2) =>
      match r2 with
      | '/' :: r3 =>
        match segMatch 'B' isUpperDigit r3 with
        | none => none
        | some (bot, r4) =>
          match r4 with
          | '/' :: r5 =>
            match takeRun1 isAlnum r5 with
            | some (tok, []) => some (String.mk team, String.mk bot, String.mk tok)
            | _ => none
          | _ => none
      | _ => none

/-- Anchored match of the workflows pattern (groups are not captured by
the source, so only success matters). -/
def workflowsMatch (cs : List Char) : Bool :=
  match dropLit workflowsHead cs with
  | none => false
  | some r1 =>
    match segMatch 'T' isUpperDigit r1 with
    | none => false
    | some (_, r2) =>
      match r2 with
      | '/' :: r3 =>
        match segMatch 'A' isUpperDigit r3 with
        | none => false
        | some (_, r4) =>
          match r4 with
          | '/' :: r5 =>
            match takeRun1 isAlnum r5 with
            | some (_, '/' :: r6) =>
              match takeRun1 isAlnum r6 with
              | some (_, []) => true
              | _ => false
            | _ => false
          | _ => false
      | _ => false

/-- Python `re.match` of a `^...$` pattern: the `$` also matches just
before one trailing newline, so strip a single final `'\n'` if present
and do the fully anchored match on what remains. -/
def pyDollarInput (cs : List Char) : List Char :=
  if cs.getLast? = some '\n' then cs.dropLast else cs

/-- `slack_utils.is_valid_webhook_url`: non-empty string matching either
anchored pattern under Python `re.match` semantics. -/
def is_valid_webhook_url (url : String) : Bool :=
  if url = "" then false
  else
    (servicesGroups (pyDollarInput url.data)).isSome ||
      workflowsMatch (pyDollarInput url.data)

/-- The services-shape full match, exactly as the specification words it
(fully anchored, no newline allowance).  Used to compare the code's
behaviour against the claim. -/
def specServicesMatch (url : String) : Bool :=
  (servicesGroups url.data).isSome

/-- The workflows-shape full match, exactly as the specification words it. -/
def specWorkflowsMatch (url : String) : Bool :=
  workflowsMatch url.data

/-- Result of `slack_utils.parse_webhook_url_components`: either the
three components of a services URL, or `\x7b"valid": False\x7d`. -/
def parse_webhook_url_components (url : String) : Option (String × String × String) :=
  if is_valid_webhook_url url then
    servicesGroups (pyDollarInput url.data)
  else none

/-- `slack_utils.mask_webhook_url`. -/
def mask_webhook_url (url : String) : String :=
  if ¬ is_valid_webhook_url url then "Invalid URL"
  else
    match parse_webhook_url_components url with
    | some (team, bot, _) =>
        "https://hooks.slack.com/services/" ++ team ++ "/" ++ bot ++ "/..."
    | none => "Invalid URL"

/-!
## Message truncation (`slack_utils.truncate_message_content`)
-/

/-- A Python value passed as `content`: `None`, a string, or a non-string
value (represented by an integer) that the source converts with `str()`. -/
inductive PyVal where
  | nonePy : PyVal
  | str : String → PyVal
  | intV : Int → PyVal

/-- Python `str()` on the non-`None` content values modelled here
(`str` of an `int` is its decimal representation). -/
def pyValStr : PyVal → String
  | .nonePy => ""
  | .str s => s
  | .intV n => toString n

/-- Python slice `cs[:i]`, including negative-index semantics:
`cs[:-k]` drops the last `k` characters. -/
def pySliceTo (cs : List Char) (i : Int) : List Char :=
  if 0 ≤ i then cs.take i.toNat
  else cs.take (cs.length - min cs.length i.natAbs)

/-- Index of the last occurrence of `c`, if any. -/
def lastIdxOf (c : Char) : List Char → Option Nat
  | [] => none
  | x :: rest =>
      match lastIdxOf c rest with
      | some i => some (i + 1)
      | none => if x = c then some 0 else none

/-- Python `s.rfind(c)`: index of the last occurrence, or `-1`. -/
def pyRfind (c : Char) (cs : List Char) : Int :=
  match lastIdxOf c cs with
  | some i => (i : Int)
  | none => -1

/-- Core of `truncate_message_content` on an actual string.  The source
compares `last_space > max_length * 0.8` in floating point; for the
integer operands that reach this comparison (`last_space ≥ -1` and any
`int` max length of sane magnitude) the double-precision comparison is
exactly the rational comparison `5 * last_space > 4 * max_length`, which
is what is written here. -/
def truncateStr (content : String) (maxLength : Int) : String :=
  if (content.length : Int) ≤ maxLength then content
  else
    let truncated := pySliceTo content.data (maxLength - 3)
    let lastSpace := pyRfind ' ' truncated
    let kept :=
      if 5 * lastSpace > 4 * maxLength then pySliceTo truncated lastSpace
      else truncated
    String.mk kept ++ "..."

/-- `slack_utils.truncate_message_content` (default `max_length` 2000):
`""` for `None`, otherwise `str()` then truncate. -/
def truncate_message_content (content : PyVal) (maxLength : Int := 2000) : String :=
  match content with
  | .nonePy => ""
  | v => truncateStr (pyValStr v) maxLength

/-- The truncation rule exactly as the specification words it: the
backtrack to the last space applies when that space is NO EARLIER than
80% of `max_length` (`≥`, where the source uses a strict `>`).  Defined
only to compare the claim against the code. -/
def truncateStrClaimed (content : String) (maxLength : Int) : String :=
  if (content.length : Int) ≤ maxLength then content
  else
    let truncated := pySliceTo content.data (maxLength - 3)
    let lastSpace := pyRfind ' ' truncated
    let kept :=
      if 5 * lastSpace ≥ 4 * maxLength then pySliceTo truncated lastSpace
      else truncated
    String.mk kept ++ "..."

/-!
## Webhook sending (`send_webhook` in `hooks/stop-slack.py` lines 74-132,
identical in `hooks/notification-slack.py` lines 68-126 and
`hooks/posttooluse-slack.py`)

The network is modelled by a function giving the outcome of each POST
attempt; `time.sleep` is modelled by recording the slept durations in
order.  `max_retries = 3`.
-/

/-- Outcome of one `urllib.request.urlopen` attempt. -/
inductive AttemptOutcome where
  | success (code : Nat) (body : String)
  | httpError (code : Nat) (reason : String)
  | exnFail (msg : String)
  deriving Repr, DecidableEq

/-- The structured result dictionary `send_webhook` returns:
`success`, `status_code`, and the `response` body or `error` text. -/
structure SendResult where
  success : Bool
  status_code : Nat
  detail : String
  deriving Repr, DecidableEq

/-- The result dictionary built for a final (non-retried) attempt. -/
def attemptResult : AttemptOutcome → SendResult
  | .success c b => ⟨true, c, b⟩
  | .httpError c r => ⟨false, c, "HTTP " ++ toString c ++ ": " ++ r⟩
  | .exnFail m => ⟨false, 0, m⟩

def isAttemptSuccess : AttemptOutcome → Bool
  | .success _ _ => true
  | _ => false

/-- The retry loop `for attempt in range(max_retries)`: on failure at a
non-final attempt, sleep `2 ** attempt` seconds and retry; on failure at
the final attempt, return the error result.  The fuel argument counts
remaining iterations (the base case models the loop falling through,
which cannot happen when started with fuel 3 at attempt 0). -/
def sendLoop (att : Nat → AttemptOutcome) : Nat → Nat → SendResult × List Nat
  | _, 0 => (⟨false, 0, "None"⟩, [])
  | i, fuel + 1 =>
      match att i with
      | .success c b => (⟨true, c, b⟩, [])
      | o =>
          if i = 2 then (attemptResult o, [])
          else
            let r := sendLoop att (i + 1) fuel
            (r.1, 2 ^ i :: r.2)

/-- `send_webhook`: the outer try models `json.dumps` request preparation
(its failure yields the "Request preparation failed" result with no
attempt made); otherwise the three-attempt retry loop runs.  The second
component lists the `time.sleep` durations in order. -/
def send_webhook (prep : Except String Unit) (att : Nat → AttemptOutcome) :
    SendResult × List Nat :=
  match prep with
  | .error e => (⟨false, 0, "Request preparation failed: " ++ e⟩, [])
  | .ok _ => sendLoop att 0 3

/-!
## Settings registrar (`slack_utils.register_hook_in_settings`,
`slack_utils.unregister_hooks_from_settings`)

`settings.json` parses to a JSON object; it is modelled by its field
list.  `load_settings_json` returns `\x7b\x7d` for a missing or empty
file, so the missing-file initial state is the empty list.  Exceptions
escaping to the caller are modelled by `Except Unit`.
-/

/-- Does the character list `needle` occur as a contiguous run of `hay`?
(Python `str in str` membership.) -/
def hasSubRun (needle : List Char) : List Char → Bool
  | [] => needle.isEmpty
  | c :: rest => (dropLit needle (c :: rest)).isSome || hasSubRun needle rest

/-- Python membership `x in container` for a string `x` and a JSON
container: value membership in a list, key membership in a dictionary,
substring membership in a string; `TypeError` for non-iterables. -/
def pyContainsStr (container : Json) (x : String) : Except Unit Bool :=
  match container with
  | .arr xs => .ok (xs.any (fun j => Json.beq j (.str x)))
  | .obj kvs => .ok (kvs.any (fun kv => kv.1 = x))
  | .str s => .ok (hasSubRun x.data s.data)
  | _ => .error ()

/-- The hook-filename → hook-type mapping of `register_hook_in_settings`. -/
def hookTypeOf (hookFile : String) : Option String :=
  if hookFile = "notification-slack.py" then some "notification"
  else if hookFile = "posttooluse-slack.py" then some "posttooluse"
  else if hookFile = "stop-slack.py" then some "stop"
  else none

/-- One iteration of the registration loop for a single hook filename.
When the `hooks` value is a dictionary and the hook-type value is a list,
the filename is appended unless already present.  When the hook-type
value is a non-list, Python evaluates the membership test and then either
skips (member) or raises on `.append` (non-member); when the `hooks`
value itself is not a dictionary, every path for a recognised hook
raises (`TypeError` on the string-keyed item access or assignment). -/
def registerStep (settings : List (String × Json)) (hookFile : String) :
    Except Unit (List (String × Json)) :=
  match hookTypeOf hookFile with
  | none => .ok settings
  | some ht =>
    match jlookup settings "hooks" with
    | some (.obj hkvs) =>
      match jlookup hkvs ht with
      | some (.arr xs) =>
          if xs.any (fun j => Json.beq j (.str hookFile)) then .ok settings
          else .ok (jset settings "hooks"
                      (.obj (jset hkvs ht (.arr (xs ++ [.str hookFile])))))
      | some other =>
          match pyContainsStr other hookFile with
          | .ok true => .ok settings
          | _ => .error ()
      | none =>
          .ok (jset settings "hooks" (.obj (jset hkvs ht (.arr [.str hookFile]))))
    | some _ => .error ()
    | none => .error ()

/-- `register_hook_in_settings` on a loaded settings object: ensure the
`hooks` key, then run one registration step per requested filename, then
save (saving cannot fail in the file-system model). -/
def register_hook_in_settings (hooksToRegister : List String)
    (settings : List (String × Json)) : Except Unit (List (String × Json)) :=
  let s0 := if (jlookup settings "hooks").isSome then settings
            else jset settings "hooks" (.obj [])
  hooksToRegister.foldlM registerStep s0

/-- A sequence of `register_hook_in_settings` calls (each reading the
settings the previous call saved). -/
def registerSeq (calls : List (List String)) (settings : List (String × Json)) :
    Except Unit (List (String × Json)) :=
  calls.foldlM (fun s l => register_hook_in_settings l s) settings

/-- Is this entry of a hook-type list removed by `unregister` — i.e. does
Python's `hook in hooks_to_remove` hold?  An entry equals a filename in
the removal list exactly when it is that JSON string. -/
def removedEntry (hooksToRemove : List String) (j : Json) : Bool :=
  hooksToRemove.any (fun h => Json.beq j (.str h))

/-- The per-hook-type filtering `unregister_hooks_from_settings` performs:
list values lose the entries named in `hooks_to_remove`; non-list values
are left untouched.  The key set is unchanged. -/
def filteredHooks (hooksToRemove : List String) (hkvs : List (String × Json)) :
    List (String × Json) :=
  hkvs.map fun kv =>
    match kv.2 with
    | .arr xs => (kv.1, Json.arr (xs.filter fun j => !removedEntry hooksToRemove j))
    | v => (kv.1, v)

/-- Did any hook-type list shrink? (`hooks_removed` in the source.) -/
def anyHookRemoved (hooksToRemove : List String) (hkvs : List (String × Json)) : Bool :=
  hkvs.any fun kv =>
    match kv.2 with
    | .arr xs => xs.any (removedEntry hooksToRemove)
    | _ => false

/-- `unregister_hooks_from_settings`: first component is the returned
flag, second is the settings content on disk afterwards (the file is
rewritten only when something was removed).  Iterating over a
non-dictionary `hooks` value raises for the shapes a settings document
can take; such inputs fall outside the schema and outside every theorem
below. -/
def unregister_hooks_from_settings (hooksToRemove : List String)
    (settings : List (String × Json)) :
    Except Unit (Bool × List (String × Json)) :=
  match jlookup settings "hooks" with
  | none => .ok (false, settings)
  | some (.obj hkvs) =>
      if anyHookRemoved hooksToRemove hkvs then
        .ok (true, jset settings "hooks" (.obj (filteredHooks hooksToRemove hkvs)))
      else .ok (false, settings)
  | some _ => .error ()

/-!
## Shared Python-semantics helpers for the hook pipelines
-/

/-- Content of one file as seen by a hook: missing, present but not
valid JSON, or parsed JSON. -/
inductive FileRead where
  | absent : FileRead
  | unparseable : FileRead
  | content : Json → FileRead

def digitChar (n : Nat) : Char := Char.ofNat ('0'.toNat + n)

/-- Canonical decimal digits of a natural number, with explicit fuel so
that the definition reduces inside the kernel (`fuel > n` suffices). -/
def serNatAux : Nat → Nat → List Char
  | 0, _ => []
  | fuel + 1, n =>
      if n < 10 then [digitChar n]
      else serNatAux fuel (n / 10) ++ [digitChar (n % 10)]

/-- Canonical decimal digits of a natural number (what `str(int)` prints). -/
def serNat (n : Nat) : List Char := serNatAux (n + 1) n

def serInt (i : Int) : List Char :=
  if i < 0 then '-' :: serNat i.natAbs else serNat i.toNat

/-- Greedy run of decimal digits, accumulating left to right. -/
def parseDigits (acc : Nat) : List Char → Nat × List Char
  | [] => (acc, [])
  | c :: rest =>
      if c.isDigit then parseDigits (acc * 10 + (c.toNat - '0'.toNat)) rest
      else (acc, c :: rest)

/-- Parse an integer (optional minus sign, one or more digits). -/
def parseNum (cs : List Char) : Option (Int × List Char) :=
  match cs with
  | [] => none
  | c :: rest =>
      if c = '-' then
        match rest with
        | [] => none
        | d :: _ =>
            if d.isDigit then
              some (-((parseDigits 0 rest).1 : Int), (parseDigits 0 rest).2)
            else none
      else if c.isDigit then
        some (((parseDigits 0 (c :: rest)).1 : Int), (parseDigits 0 (c :: rest)).2)
      else none

/-- The clock is an explicit `now : Int` (seconds).  `isoformat` is an
injective rendering of the current time whose `fromisoformat` inverse
succeeds exactly on its outputs; both are modelled by the canonical
decimal encoding, which has the same two properties. -/
def encodeTime (t : Int) : String := String.mk (serInt t)

/-- `datetime.fromisoformat`: succeeds on encoded times, raises
(`ValueError`) on anything else. -/
def decodeTime (s : String) : Option Int :=
  match parseNum s.data with
  | some (i, []) => some i
  | _ => none

/-- `datetime.now().strftime('%Y-%m-%d %H:%M:%S')`, modelled by the same
injective rendering of `now` (no claim inspects its shape). -/
def humanTime (t : Int) : String := String.mk (serInt t)

/-- A JSON value used as a Python `int` operand: numbers are themselves,
booleans are 0/1, anything else is a `TypeError`. -/
def pyIntOfJson : Json → Option Int
  | .num n => some n
  | .bool b => some (if b then 1 else 0)
  | _ => none

/-- Python `len()` of a JSON value: length of a string, list or
dictionary; `TypeError` otherwise. -/
def pyLen : Json → Option Int
  | .str s => some s.length
  | .arr xs => some xs.length
  | .obj kvs => some kvs.length
  | _ => none

/-- Python `x != 0` for a JSON value: numbers compare numerically,
booleans as 0/1, and values of any other type are never equal to 0. -/
def pyNeZero : Json → Bool
  | .num n => n != 0
  | .bool b => b
  | _ => true

/-- Python `==` on the JSON values modelled here: structural equality
plus the numeric identification of booleans with 0/1. -/
def pyEqJson (a b : Json) : Bool :=
  match a, b with
  | .bool x, .num m => (if x then (1 : Int) else 0) == m
  | .num n, .bool y => n == (if y then (1 : Int) else 0)
  | _, _ => Json.beq a b

/-- Python `repr()` escape for one character inside a single-quoted
string literal (backslash and quote only; enough for the values here). -/
def pyReprEsc (c : Char) : List Char :=
  if c = '\\' then ['\\', '\\']
  else if c = '\'' then ['\\', '\'']
  else [c]

mutual

/-- Python `str()` of a JSON value, as an f-string renders it. -/
def pyStrJ : Json → String
  | .null => "None"
  | .bool b => if b then "True" else "False"
  | .num n => toString n
  | .str s => s
  | .arr xs => "[" ++ pyStrList xs ++ "]"
  | .obj kvs => "\x7b" ++ pyStrObj kvs ++ "\x7d"

/-- Python `repr()` of a JSON value (used for elements inside containers). -/
def pyReprJ : Json → String
  | .null => "None"
  | .bool b => if b then "True" else "False"
  | .num n => toString n
  | .str s => String.mk ('\'' :: (s.data.flatMap pyReprEsc) ++ ['\''])
  | .arr xs => "[" ++ pyStrList xs ++ "]"
  | .obj kvs => "\x7b" ++ pyStrObj kvs ++ "\x7d"

def pyStrList : List Json → String
  | [] => ""
  | [x] => pyReprJ x
  | x :: rest => pyReprJ x ++ ", " ++ pyStrList rest

def pyStrObj : List (String × Json) → String
  | [] => ""
  | [(k, v)] => pyReprJ (.str k) ++ ": " ++ pyReprJ v
  | (k, v) :: rest => pyReprJ (.str k) ++ ": " ++ pyReprJ v ++ ", " ++ pyStrObj rest

end

/-- The whitespace characters `str.strip()` removes (the ASCII ones; the
strings this code strips contain no exotic Unicode spaces). -/
def pyIsWs (c : Char) : Bool :=
  c = ' ' || c = '\t' || c = '\n' || c = '\r' || c = '\x0b' || c = '\x0c'

/-- Python `s.strip()`. -/
def pyStrip (s : String) : String :=
  String.mk (((s.data.dropWhile pyIsWs).reverse.dropWhile pyIsWs).reverse)

/-- Split a character list at every occurrence of `c`. -/
def splitOnChar (c : Char) : List Char → List (List Char)
  | [] => [[]]
  | x :: rest =>
      match splitOnChar c rest with
      | [] => [[]]
      | seg :: segs => if x = c then [] :: seg :: segs else (x :: seg) :: segs

/-- `pathlib.Path(s).name` on POSIX: the last `/`-separated component
after dropping empty and `"."` segments (pathlib parses those away), or
`""` when none remain. -/
def pathName (s : String) : String :=
  let segs := ((splitOnChar '/' s.data).map String.mk).filter
    (fun seg => seg ≠ "" ∧ seg ≠ ".")
  (segs.getLast?).getD ""

/-- Python `str.title()`: first letter of each alphabetic run uppercased,
the rest lowercased. -/
def pyTitleGo : Bool → List Char → List Char
  | _, [] => []
  | prevAlpha, c :: rest =>
      if c.isAlpha then
        (if prevAlpha then c.toLower else c.toUpper) :: pyTitleGo true rest
      else c :: pyTitleGo false rest

def pyTitle (s : String) : String := String.mk (pyTitleGo false s.data)

/-- Python `", ".join(items)` over JSON values: requires every element to
be a string (`TypeError` otherwise). -/
def pyJoin (sep : String) : List Json → Option String
  | [] => some ""
  | [.str s] => some s
  | .str s :: rest =>
      match pyJoin sep rest with
      | some r => some (s ++ sep ++ r)
      | none => none
  | _ => none

/-- Python `xs[-n:]`: the last `n` elements (all of them if fewer). -/
def pyLastN (n : Nat) (xs : List α) : List α := xs.drop (xs.length - n)

/-- First-occurrence deduplication under Python equality.  `list(set(xs))`
iterates in an unspecified order; the claims below never inspect an
order-sensitive case, and the first-seen order is used as the model. -/
def pyDedup : List Json → List Json
  | [] => []
  | x :: rest =>
      let tail := pyDedup rest
      x :: tail.filter (fun y => !pyEqJson x y)

/-- Membership of a JSON value in a list of strings (Python `in`). -/
def pyMemStrList (j : Json) (names : List String) : Bool :=
  names.any (fun n => pyEqJson j (.str n))

/-!
## PostToolUse hook (`hooks/posttooluse-slack.py`)
-/

/-- `load_config` (identical in the three hook scripts): `None` when the
config file is missing, unreadable as JSON, not a dictionary (the
attribute error on `.get` is swallowed by the bare `except`), falsy
`enabled`, or falsy `webhook_url`.  Note the source reads the key
`enabled`, not `active`. -/
def load_config (file : FileRead) : Option (List (String × Json)) :=
  match file with
  | .absent => none
  | .unparseable => none
  | .content (.obj kvs) =>
      if ¬ pyTruthy (jget kvs "enabled" (.bool false)) then none
      else if ¬ pyTruthy (jget kvs "webhook_url" .null) then none
      else some kvs
  | .content _ => none

/-- `should_notify_for_tool`: allow-list filter with default
`["Write", "Edit", "MultiEdit", "Bash"]` when `notify_on` is absent or
falsy. -/
def should_notify_for_tool (toolName : String) (config : List (String × Json)) :
    Except Unit Bool :=
  match jget config "tool_filters" (.obj []) with
  | .obj tf =>
      let notifyOn := jget tf "notify_on" (.arr [])
      if ¬ pyTruthy notifyOn then
        .ok (["Write", "Edit", "MultiEdit", "Bash"].contains toolName)
      else pyContainsStr notifyOn toolName
  | _ => .error ()

/-- `Path(x).name` for a JSON `file_path`-like value that was found
truthy: string paths work, other values raise `TypeError`. -/
def pathNameOfJson : Json → Except Unit String
  | .str s => .ok (pathName s)
  | _ => .error ()

/-- The `filename` computation shared by several branches:
`Path(file_path).name if file_path else "file"`. -/
def filenameOf (filePath : Json) : Except Unit String :=
  if pyTruthy filePath then pathNameOfJson filePath else .ok "file"

/-- Python slicing `x[:50]` on the values that can reach it, followed by
the f-string rendering (`...` appended by the caller where applicable). -/
def pySlice50Str : Json → Except Unit Json
  | .str s => .ok (.str (String.mk (s.data.take 50)))
  | .arr xs => .ok (.arr (xs.take 50))
  | _ => .error ()

/-- `generate_tool_description` (lines 181-271). -/
def generate_tool_description (toolName : String) (toolInput toolResponse : Json) :
    Except Unit String := do
  let resp ← match toolResponse with
    | .obj kvs => Except.ok kvs
    | _ => Except.error ()
  let success := jget resp "success" (.bool true)
  let exitCode := jget resp "exit_code" (.num 0)
  let failed := ¬ pyTruthy success ∨ pyNeZero exitCode
  let pre := if failed then "❌ Failed: " else ""
  if toolName = "Write" ∨ toolName = "Edit" ∨ toolName = "MultiEdit" then do
    let inp ← match toolInput with
      | .obj kvs => Except.ok kvs
      | _ => Except.error ()
    let filename ← filenameOf (jget inp "file_path" (.str ""))
    if toolName = "Write" then do
      let size ← match pyLen (jget inp "content" (.str "")) with
        | some n => Except.ok n
        | none => Except.error ()
      let sizeDesc := if size > 0 then "(" ++ toString size ++ " chars)" else ""
      return pyStrip (pre ++ "📝 Created " ++ filename ++ " " ++ sizeDesc)
    else if toolName = "Edit" then do
      let oldS := jget inp "old_string" (.str "")
      let newS := jget inp "new_string" (.str "")
      let changes ←
        if pyTruthy oldS ∧ pyTruthy newS then do
          let a ← match pyLen oldS with
            | some n => Except.ok n
            | none => Except.error ()
          let b ← match pyLen newS with
            | some n => Except.ok n
            | none => Except.error ()
          Except.ok ("(" ++ toString a ++ " → " ++ toString b ++ " chars)")
        else Except.ok ""
      return pyStrip (pre ++ "✏️ Modified " ++ filename ++ " " ++ changes)
    else do
      let edits := jget inp "edits" (.arr [])
      let editCount : Nat := match edits with
        | .arr xs => xs.length
        | _ => 1
      return pyStrip (pre ++ "📝 Multi-edited " ++ filename ++ " (" ++
        toString editCount ++ " changes)")
  else if toolName = "Bash" then do
    let inp ← match toolInput with
      | .obj kvs => Except.ok kvs
      | _ => Except.error ()
    let command := jget inp "command" (.str "")
    let descr := jget inp "description" (.str "")
    let cmdLen ← match pyLen command with
      | some n => Except.ok n
      | none => Except.error ()
    let displayed ←
      if cmdLen > 50 then
        match command with
        | .str s => Except.ok (Json.str (String.mk (s.data.take 50) ++ "..."))
        | _ => Except.error ()
      else Except.ok command
    let displayText :=
      if pyTruthy descr then pyStrJ descr ++ " (" ++ pyStrJ displayed ++ ")"
      else pyStrJ displayed
    let exitInfo := if pyNeZero exitCode then " [exit: " ++ pyStrJ exitCode ++ "]" else ""
    return pyStrip (pre ++ "⚡ Executed: " ++ displayText ++ exitInfo)
  else if toolName = "Read" then do
    let inp ← match toolInput with
      | .obj kvs => Except.ok kvs
      | _ => Except.error ()
    let filename ← filenameOf (jget inp "file_path" (.str ""))
    let o ← match pyIntOfJson (jget inp "offset" (.num 0)) with
      | some n => Except.ok n
      | none => Except.error ()
    let l ← match pyIntOfJson (jget inp "limit" (.num 0)) with
      | some n => Except.ok n
      | none => Except.error ()
    let rangeDesc :=
      if o > 0 ∨ l > 0 then
        if l > 0 then " (lines " ++ toString o ++ "-" ++ toString (o + l) ++ ")"
        else " (from line " ++ toString o ++ ")"
      else ""
    return pyStrip (pre ++ "📖 Read " ++ filename ++ rangeDesc)
  else if toolName = "Grep" ∨ toolName = "Glob" then do
    let inp ← match toolInput with
      | .obj kvs => Except.ok kvs
      | _ => Except.error ()
    let pattern := jget inp "pattern" (.str "")
    let path := jget inp "path" (.str "")
    let pathDesc ←
      if pyTruthy path then do
        let n ← pathNameOfJson path
        Except.ok (" in " ++ n)
      else Except.ok ""
    return pyStrip (pre ++ "🔍 Searched for: " ++ pyStrJ pattern ++ pathDesc)
  else if toolName = "TodoWrite" ∨ toolName = "TodoRead" then
    return pyStrip (pre ++ "📋 Updated task list")
  else if toolName = "WebFetch" ∨ toolName = "WebSearch" then do
    let inp ← match toolInput with
      | .obj kvs => Except.ok kvs
      | _ => Except.error ()
    let url := jget inp "url" (.str "")
    let query := jget inp "query" (.str "")
    let searchTerm := if pyTruthy url then url
      else if pyTruthy query then query else .str "web content"
    let sliced ← pySlice50Str searchTerm
    return pyStrip (pre ++ "🌐 Web research: " ++ pyStrJ sliced)
  else if toolName = "NotebookEdit" then do
    let inp ← match toolInput with
      | .obj kvs => Except.ok kvs
      | _ => Except.error ()
    let filename ←
      if pyTruthy (jget inp "notebook_path" (.str "")) then
        pathNameOfJson (jget inp "notebook_path" (.str ""))
      else Except.ok "notebook"
    let title ← match jget inp "edit_mode" (.str "replace") with
      | .str s => Except.ok (pyTitle s)
      | _ => Except.error ()
    return pyStrip (pre ++ "📓 " ++ title ++ " in " ++ filename)
  else
    return pyStrip (pre ++ "🔧 Used " ++ toolName)

/-- The default fresh aggregation state dictionary. -/
def defaultAggState (sid : String) (now : Int) : List (String × Json) :=
  [("session_id", .str sid), ("tools", .arr []),
   ("last_notification", .str (encodeTime now)), ("notification_count", .num 0)]

/-- The tool record appended by `update_aggregation_state`. -/
def newToolRecord (tool desc : String) (now : Int) : Json :=
  .obj [("tool_name", .str tool), ("description", .str desc),
        ("timestamp", .str (encodeTime now))]

/-- `update_aggregation_state` (lines 311-358): load the previous state
(falling back to a fresh one when the file is missing or unparseable),
append the new tool record, keep the last 10 records, stamp
`last_notification`, bump `notification_count`, write.  The result is
the content written, or `none` when an uncaught exception (missing or
non-list `tools`, non-numeric count, non-dictionary state) aborts the
call before anything is written. -/
def updateAggCore (state : Json) (now : Int) (tool desc : String) : Option Json :=
  match state with
  | .obj kvs =>
    match jlookup kvs "tools" with
    | some (.arr xs) =>
        match pyIntOfJson (jget kvs "notification_count" (.num 0)) with
        | none => none
        | some n =>
            some (.obj (jset
              (jset (jset kvs "tools"
                  (.arr (pyLastN 10 (xs ++ [newToolRecord tool desc now]))))
                "last_notification" (.str (encodeTime now)))
              "notification_count" (.num (n + 1))))
    | _ => none
  | _ => none

def update_aggregation_state (prior : FileRead) (now : Int)
    (sid tool desc : String) : Option Json :=
  updateAggCore
    (match prior with
     | .content j => j
     | _ => .obj (defaultAggState sid now)) now tool desc

/-- `should_aggregate_notification` (lines 278-309): aggregate when the
state file records a last notification strictly less than
`aggregate_timeout` seconds (default 5) before `now`.  A missing file,
unparseable file, missing or undecodable timestamp, or non-positive
timeout all mean "do not aggregate"; a non-dictionary state or
non-string timestamp raises an uncaught `TypeError`/`AttributeError`. -/
def should_aggregate_notification (config : List (String × Json))
    (stateFile : FileRead) (now : Int) : Except Unit Bool :=
  match jget config "tool_filters" (.obj []) with
  | .obj tf =>
    match pyIntOfJson (jget tf "aggregate_timeout" (.num 5)) with
    | none => .error ()
    | some timeout =>
      if timeout ≤ 0 then .ok false
      else
        match stateFile with
        | .absent => .ok false
        | .unparseable => .ok false
        | .content (.obj kvs) =>
          match jget kvs "last_notification" (.str "") with
          | .str s =>
            match decodeTime s with
            | none => .ok false
            | some t => .ok (now - t < timeout)
          | _ => .error ()
        | .content _ => .error ()
  | _ => .error ()

/-- Block Kit building helpers shared by the hook formatters (each dict
literal keeps the source's key order). -/
def mrkdwnJ (t : Json) : Json := .obj [("type", .str "mrkdwn"), ("text", t)]

def mrkdwn (t : String) : Json := mrkdwnJ (.str t)

def sectionTextJ (t : Json) : Json :=
  .obj [("type", .str "section"), ("text", mrkdwnJ t)]

def sectionText (t : String) : Json := sectionTextJ (.str t)

def sectionFields (fs : List Json) : Json :=
  .obj [("type", .str "section"), ("fields", .arr fs)]

def contextBlock (t : String) : Json :=
  .obj [("type", .str "context"), ("elements", .arr [mrkdwn t])]

def slackPayload (text : String) (blocks : List Json) : Json :=
  .obj [("text", .str text), ("blocks", .arr blocks)]

/-- Association-list update under Python dictionary-key equality
(replace in place, else append): `tool_summary[tool_name] = description`. -/
def jAssocSet (ps : List (Json × Json)) (k v : Json) : List (Json × Json) :=
  match ps with
  | [] => [(k, v)]
  | (k', v') :: rest =>
      if pyEqJson k' k then (k', v) :: rest else (k', v') :: jAssocSet rest k v

/-- `create_aggregated_message` (lines 360-455). -/
def create_aggregated_message (sid curTool curDesc : String) (project : Json)
    (stateFile : FileRead) (now : Int) : Except Unit Json := do
  let current : Json := .obj [("tool_name", .str curTool), ("description", .str curDesc)]
  let tools ← match stateFile with
    | .content (.obj kvs) =>
        match jget kvs "tools" (.arr []) with
        | .arr xs => Except.ok (xs ++ [current])
        | _ => Except.error ()
    | .content _ => Except.error ()
    | _ => Except.ok [current]
  let summary ← (pyLastN 5 tools).foldlM (fun acc t =>
      match t with
      | .obj tkvs =>
          Except.ok (jAssocSet acc (jget tkvs "tool_name" (.str ""))
            (jget tkvs "description" (.str "")))
      | _ => Except.error ()) ([] : List (Json × Json))
  let activityList := summary.map Prod.snd
  let activityText : Json :=
    match activityList with
    | [d] => d
    | ds => .str (String.intercalate "\n" (ds.map (fun d => "• " ++ pyStrJ d)))
  let fields :=
    [mrkdwn ("*Session:*\n" ++ sid), mrkdwn ("*Project:*\n" ++ pyStrJ project)] ++
      (if tools.length > 1 then
        [mrkdwn ("*Tools Used:*\n" ++ toString tools.length ++ " operations")]
      else [])
  return slackPayload ("Claude Code activity: " ++ curDesc)
    [sectionText "🔄 *Recent Activity*", sectionTextJ activityText,
     sectionFields fields, contextBlock ("Updated at " ++ humanTime now)]

/-- `truncate_message_content` applied to a JSON value (as
`create_posttooluse_message` does to the error message). -/
def truncateJson (j : Json) (maxLength : Int) : String :=
  match j with
  | .null => ""
  | .str s => truncateStr s maxLength
  | other => truncateStr (pyStrJ other) maxLength

/-- `create_posttooluse_message` (lines 457-535). -/
def create_posttooluse_message (sid toolName : String) (toolResponse : Json)
    (description : String) (now : Int) : Except Unit Json := do
  let resp ← match toolResponse with
    | .obj kvs => Except.ok kvs
    | _ => Except.error ()
  let success := jget resp "success" (.bool true)
  let exitCode := jget resp "exit_code" (.num 0)
  let failed := ¬ pyTruthy success ∨ pyNeZero exitCode
  let emoji := if failed then "❌" else "🔧"
  let fields0 := [mrkdwn ("*Session:*\n" ++ sid), mrkdwn ("*Tool:*\n" ++ toolName)]
  let errMsg := jget resp "error" (.str "Unknown error")
  let fields :=
    if failed ∧ pyTruthy errMsg then
      fields0 ++ [mrkdwn ("*Error:*\n" ++ truncateJson errMsg 100)]
    else fields0
  return slackPayload ("Claude Code tool usage: " ++ description)
    [sectionText (emoji ++ " *" ++ description ++ "*"), sectionFields fields,
     contextBlock ("Executed at " ++ humanTime now)]

/-- The stdin fields the PostToolUse hook extracts (via `.get` with these
defaults). -/
structure PostInput where
  session_id : String
  tool_name : String
  tool_input : Json
  tool_response : Json
  hook_event_name : String

/-- Observable outcome of one hook invocation: exit code, webhook
payloads posted, and the aggregation-state content written (if any). -/
structure HookOutcome where
  exitCode : Nat
  sent : List Json
  aggWritten : Option Json

/-- `main` of `hooks/posttooluse-slack.py` (lines 553-665), from the
required-field validation to the exit code.  `aggFile` is the
aggregation-state file as it stands after the opportunistic cleanup of
stale files at the top of `main`; `now` is the invocation's clock
reading; `att` the network.  Uncaught exceptions reach the outer
`except Exception` and exit 1. -/
def posttooluseMain (inp : PostInput) (cfgFile : FileRead) (aggFile : FileRead)
    (now : Int) (att : Nat → AttemptOutcome) : HookOutcome :=
  if inp.session_id = "" then ⟨1, [], none⟩
  else if inp.tool_name = "" then ⟨1, [], none⟩
  else if inp.hook_event_name ≠ "PostToolUse" then ⟨1, [], none⟩
  else
    match load_config cfgFile with
    | none => ⟨0, [], none⟩
    | some cfg =>
      if ¬ pyTruthy (jget cfg "enabled" (.bool false)) then ⟨0, [], none⟩
      else
        match should_notify_for_tool inp.tool_name cfg with
        | .error _ => ⟨1, [], none⟩
        | .ok false => ⟨0, [], none⟩
        | .ok true =>
          match jget cfg "webhook_url" (.str "") with
          | .str url =>
            if ¬ is_valid_webhook_url url then ⟨1, [], none⟩
            else
              match generate_tool_description inp.tool_name inp.tool_input
                  inp.tool_response with
              | .error _ => ⟨1, [], none⟩
              | .ok desc =>
                match update_aggregation_state aggFile now inp.session_id
                    inp.tool_name desc with
                | none => ⟨1, [], none⟩
                | some written =>
                  let project := jget cfg "project_name" (.str "Unknown Project")
                  match should_aggregate_notification cfg (.content written) now with
                  | .error _ => ⟨1, [], some written⟩
                  | .ok aggregate =>
                    let msg :=
                      if aggregate then
                        create_aggregated_message inp.session_id inp.tool_name desc
                          project (.content written) now
                      else
                        create_posttooluse_message inp.session_id inp.tool_name
                          inp.tool_response desc now
                    match msg with
                    | .error _ => ⟨1, [], some written⟩
                    | .ok payload =>
                      let result := send_webhook (.ok ()) att
                      if result.1.success then ⟨0, [payload], some written⟩
                      else ⟨1, [payload], some written⟩
          | _ => ⟨1, [], none⟩

/-!
## Stop hook (`hooks/stop-slack.py`) and the setup handler
-/

/-- One non-blank transcript line: valid JSON or not
(`json.JSONDecodeError` lines are skipped individually). -/
inductive LineRead where
  | badLine : LineRead
  | entry : Json → LineRead

/-- Accumulated transcript statistics (`tools_used`, the
`files_modified` set in insertion order, and the message counters). -/
structure TAcc where
  tools : List Json
  files : List Json
  userMsgs : Nat
  asstMsgs : Nat

/-- `set.add`: insert if no equal member is present. -/
def addSet (files : List Json) (x : Json) : List Json :=
  if files.any (fun y => pyEqJson y x) then files else files ++ [x]

/-- Process the `content` items of one assistant entry.  An exception
(`Path` of a non-string, `.get` on a non-dictionary) is caught by the
OUTER `except Exception: pass` of `parse_transcript_for_summary`, which
abandons the rest of the file but keeps everything accumulated so far:
the `Except` error value carries the partial accumulator. -/
def processItems : List Json → TAcc → Except TAcc TAcc
  | [], acc => .ok acc
  | item :: rest, acc =>
    match item with
    | .obj ikvs =>
      if pyEqJson (jget ikvs "type" .null) (.str "tool_use") then
        let toolName := jget ikvs "name" .null
        if pyTruthy toolName then
          let acc1 := { acc with tools := acc.tools ++ [toolName] }
          if pyMemStrList toolName ["Write", "Edit", "MultiEdit"] then
            match jget ikvs "input" (.obj []) with
            | .obj tkvs =>
              let fp := jget tkvs "file_path" .null
              if pyTruthy fp then
                match fp with
                | .str s =>
                    processItems rest
                      { acc1 with files := addSet acc1.files (.str (pathName s)) }
                | _ => .error acc1
              else processItems rest acc1
            | _ => .error acc1
          else processItems rest acc1
        else processItems rest acc
      else processItems rest acc
    | _ => processItems rest acc

/-- Process one parsed transcript entry. -/
def processEntry (j : Json) (acc : TAcc) : Except TAcc TAcc :=
  match j with
  | .obj kvs =>
    if pyEqJson (jget kvs "type" (.str "")) (.str "user") then
      .ok { acc with userMsgs := acc.userMsgs + 1 }
    else if pyEqJson (jget kvs "type" (.str "")) (.str "assistant") then
      let acc1 := { acc with asstMsgs := acc.asstMsgs + 1 }
      match jget kvs "message" (.obj []) with
      | .obj mkvs =>
        match jget mkvs "content" (.arr []) with
        | .arr items => processItems items acc1
        | _ => .ok acc1
      | _ => .error acc1
    else .ok acc
  | _ => .error acc

/-- The per-line loop: malformed lines are skipped individually, and any
other exception abandons the remainder of the file (keeping the partial
counts). -/
def processLines : List LineRead → TAcc → TAcc
  | [], acc => acc
  | .badLine :: rest, acc => processLines rest acc
  | .entry j :: rest, acc =>
    match processEntry j acc with
    | .ok acc' => processLines rest acc'
    | .error acc' => acc'

/-- The summary dictionary `parse_transcript_for_summary` returns
(all of its fixed keys, as a structure). -/
structure TranscriptSummary where
  tools_used : Nat
  unique_tools : List Json
  files_modified : Nat
  modified_files : List Json
  user_messages : Nat
  assistant_messages : Nat
  activity : String

/-- `parse_transcript_for_summary` (lines 163-243).  `none` models a
falsy or non-existent transcript path. -/
def parse_transcript_for_summary (transcript : Option (List LineRead)) :
    TranscriptSummary :=
  match transcript with
  | none => ⟨0, [], 0, [], 0, 0, "No activity recorded"⟩
  | some lines =>
    let acc := processLines lines ⟨[], [], 0, 0⟩
    let activity :=
      if acc.tools.isEmpty then "Empty session - no activity recorded"
      else if acc.tools.length ≥ 5 then "Active session with significant work"
      else if acc.tools.length ≥ 2 then "Session completed with activity"
      else "Brief session"
    ⟨acc.tools.length, pyDedup acc.tools, acc.files.length, acc.files,
     acc.userMsgs, acc.asstMsgs, activity⟩

/-- `create_session_complete_message` (lines 245-345).  The emoji string
literals reproduce the source file's bytes exactly (the file stores them
mojibake-encoded).  `", ".join` raises when a collected tool name is not
a string, which would surface as exit 1 in `main`. -/
def create_session_complete_message (sessionId : String)
    (summary : TranscriptSummary) (projectName : Json) (now : Int) :
    Except Unit Json := do
  let toolsCount := summary.tools_used
  let emoji := if toolsCount ≥ 5 then "ðŸŽ¯" else if toolsCount ≥ 1 then "âœ…" else "ðŸ’¤"
  let status :=
    if toolsCount ≥ 5 then "Productive Session Complete"
    else if toolsCount ≥ 1 then "Session Complete"
    else "Session Complete (No Activity)"
  let fields :=
    [mrkdwn ("*Session ID:*\n" ++ sessionId),
     mrkdwn ("*Project:*\n" ++ pyStrJ projectName)] ++
    (if toolsCount > 0 then
      [mrkdwn ("*Tools Used:*\n" ++ toString summary.tools_used),
       mrkdwn ("*Files Modified:*\n" ++ toString summary.files_modified)]
    else [])
  let activity1 := "*Summary:* " ++ summary.activity
  let activity2 ←
    if ¬ summary.unique_tools.isEmpty then do
      let toolsList ← match pyJoin ", " (summary.unique_tools.take 5) with
        | some s => Except.ok s
        | none => Except.error ()
      let toolsList :=
        if summary.unique_tools.length > 5 then
          toolsList ++ " (+" ++ toString (summary.unique_tools.length - 5) ++ " more)"
        else toolsList
      Except.ok (activity1 ++ "\n*Tools:* " ++ toolsList)
    else Except.ok activity1
  let activity3 ←
    if ¬ summary.modified_files.isEmpty then do
      let filesList ← match pyJoin ", " (summary.modified_files.take 3) with
        | some s => Except.ok s
        | none => Except.error ()
      let filesList :=
        if summary.modified_files.length > 3 then
          filesList ++ " (+" ++ toString (summary.modified_files.length - 3) ++ " more)"
        else filesList
      Except.ok (activity2 ++ "\n*Files:* " ++ filesList)
    else Except.ok activity2
  return slackPayload ("Claude Code session " ++ sessionId ++ " completed")
    [sectionText (emoji ++ " *" ++ status ++ "*"), sectionFields fields,
     sectionText activity3, contextBlock ("Completed at " ++ humanTime now)]

/-- The stdin fields the Stop hook extracts. -/
structure StopInput where
  session_id : String
  transcript_path : String
  hook_event_name : String
  stop_hook_active : Bool

/-- `main` of `hooks/stop-slack.py` (lines 347-423): exit code and the
webhook payloads posted.  `transcript` is `none` when the transcript
path is falsy or names no file. -/
def stopMain (inp : StopInput) (cfgFile : FileRead)
    (transcript : Option (List LineRead)) (now : Int)
    (att : Nat → AttemptOutcome) : Nat × List Json :=
  if inp.session_id = "" then (1, [])
  else if inp.hook_event_name ≠ "Stop" then (1, [])
  else if inp.stop_hook_active then (0, [])
  else
    match load_config cfgFile with
    | none => (0, [])
    | some cfg =>
      match jget cfg "webhook_url" (.str "") with
      | .str url =>
        if ¬ is_valid_webhook_url url then (1, [])
        else
          let summary := parse_transcript_for_summary transcript
          match create_session_complete_message inp.session_id summary
              (jget cfg "project_name" (.str "Unknown Project")) now with
          | .error _ => (1, [])
          | .ok msg =>
            if (send_webhook (.ok ()) att).1.success then (0, [msg])
            else (1, [msg])
      | _ => (1, [])

/-- `setup_handler.create_configuration` (lines 76-97): preserve the
existing configuration, overlay the parsed arguments, then force
`version = "1.0"` and `active = True`. -/
def create_configuration (parsedArgs existing : List (String × Json)) :
    List (String × Json) :=
  jset (jset (jupdate existing parsedArgs) "version" (.str "1.0")) "active" (.bool true)

/-!
## JSON serialization and parsing
(`json.dump(config_data, f, indent=2, ensure_ascii=False)` in
`save_configuration`, `json.loads` in `load_configuration`)

The serializer mirrors CPython's encoder for the value space modelled
here: two-space indentation, `", "`-free item separators (a comma, then
a newline and indent), `": "` key separator, and `ensure_ascii=False`
string escaping (only `"`ables, backslash and control characters are
escaped).  The parser accepts at least the serializer's image — which is
all the round-trip claim needs — plus ordinary whitespace; places where
full `json.loads` is stricter (leading zeros, floats, surrogate escapes)
are outside that image.
-/

def hexDig (n : Nat) : Char :=
  if n < 10 then Char.ofNat ('0'.toNat + n) else Char.ofNat ('a'.toNat + n - 10)

/-- The JSON string escape of one character under `ensure_ascii=False`. -/
def escChar (c : Char) : List Char :=
  if c = '"' then ['\\', '"']
  else if c = '\\' then ['\\', '\\']
  else if c = '\n' then ['\\', 'n']
  else if c = '\t' then ['\\', 't']
  else if c = '\r' then ['\\', 'r']
  else if c = '\x08' then ['\\', 'b']
  else if c = '\x0c' then ['\\', 'f']
  else if c.toNat < 0x20 then
    ['\\', 'u', '0', '0', hexDig (c.toNat / 16), hexDig (c.toNat % 16)]
  else [c]

def escString (s : String) : List Char :=
  '"' :: s.data.flatMap escChar ++ ['"']

/-- Indentation at nesting level `lvl` (two spaces per level). -/
def ind (lvl : Nat) : List Char := List.replicate (2 * lvl) ' '

mutual

/-- `json.dumps` with `indent=2`, at nesting level `lvl`. -/
def serJson (lvl : Nat) : Json → List Char
  | .null => "null".data
  | .bool true => "true".data
  | .bool false => "false".data
  | .num i => serInt i
  | .str s => escString s
  | .arr [] => "[]".data
  | .arr (x :: xs) =>
      '[' :: '\n' :: ind (lvl + 1) ++ serJson (lvl + 1) x ++
        serItems (lvl + 1) xs ++ '\n' :: ind lvl ++ [']']
  | .obj [] => ['\x7b', '\x7d']
  | .obj ((k, v) :: kvs) =>
      '\x7b' :: '\n' :: ind (lvl + 1) ++ escString k ++ ':' :: ' ' ::
        serJson (lvl + 1) v ++ serFields (lvl + 1) kvs ++
        '\n' :: ind lvl ++ ['\x7d']

/-- The remaining array items, each preceded by `",\n" ++ indent`. -/
def serItems (lvl : Nat) : List Json → List Char
  | [] => []
  | x :: xs => ',' :: '\n' :: ind lvl ++ serJson lvl x ++ serItems lvl xs

/-- The remaining object fields. -/
def serFields (lvl : Nat) : List (String × Json) → List Char
  | [] => []
  | (k, v) :: kvs =>
      ',' :: '\n' :: ind lvl ++ escString k ++ ':' :: ' ' ::
        serJson lvl v ++ serFields lvl kvs

end

def dumps (v : Json) : String := String.mk (serJson 0 v)

/-- JSON inter-token whitespace. -/
def isJWs (c : Char) : Bool := c = ' ' || c = '\t' || c = '\n' || c = '\r'

def skipWs (cs : List Char) : List Char := cs.dropWhile isJWs

def parseHexDig (c : Char) : Option Nat :=
  if '0' ≤ c ∧ c ≤ '9' then some (c.toNat - '0'.toNat)
  else if 'a' ≤ c ∧ c ≤ 'f' then some (c.toNat - 'a'.toNat + 10)
  else if 'A' ≤ c ∧ c ≤ 'F' then some (c.toNat - 'A'.toNat + 10)
  else none

/-- Parse the body of a JSON string after the opening quote, up to and
including the closing quote. -/
def parseStrBody : List Char → Option (List Char × List Char)
  | [] => none
  | '"' :: rest => some ([], rest)
  | '\\' :: 'u' :: h1 :: h2 :: h3 :: h4 :: rest =>
      (match parseHexDig h1, parseHexDig h2, parseHexDig h3, parseHexDig h4 with
       | some a, some b, some c, some d =>
           (parseStrBody rest).map
             (fun (r : List Char × List Char) =>
               (Char.ofNat (((a * 16 + b) * 16 + c) * 16 + d) :: r.1, r.2))
       | _, _, _, _ => none)
  | '\\' :: e :: rest =>
      (match e with
       | '"' => some '"'
       | '\\' => some '\\'
       | '/' => some '/'
       | 'n' => some '\n'
       | 't' => some '\t'
       | 'r' => some '\r'
       | 'b' => some '\x08'
       | 'f' => some '\x0c'
       | _ => none).bind fun c =>
        (parseStrBody rest).map
          (fun (r : List Char × List Char) => (c :: r.1, r.2))
  | c :: rest =>
      (parseStrBody rest).map
        (fun (r : List Char × List Char) => (c :: r.1, r.2))

mutual

/-- Parse one JSON value.  Fuel bounds the recursion depth; the
round-trip theorems instantiate it above the value's size. -/
def parseValue : Nat → List Char → Option (Json × List Char)
  | 0, _ => none
  | _ + 1, [] => none
  | fuel + 1, c :: rest =>
      if c = 'n' then
        (dropLit "ull".data rest).map fun r => (Json.null, r)
      else if c = 't' then
        (dropLit "rue".data rest).map fun r => (Json.bool true, r)
      else if c = 'f' then
        (dropLit "alse".data rest).map fun r => (Json.bool false, r)
      else if c = '"' then
        (parseStrBody rest).map fun r => (Json.str (String.mk r.1), r.2)
      else if c = '[' then
        match skipWs rest with
        | ']' :: r => some (Json.arr [], r)
        | r => parseItems fuel r []
      else if c = '\x7b' then
        match skipWs rest with
        | '\x7d' :: r => some (Json.obj [], r)
        | r => parseFields fuel r []
      else parseNum (c :: rest) |>.map fun r => (Json.num r.1, r.2)

/-- Parse the items of a non-empty array, accumulating in order. -/
def parseItems : Nat → List Char → List Json → Option (Json × List Char)
  | 0, _, _ => none
  | fuel + 1, cs, acc =>
      match parseValue fuel cs with
      | none => none
      | some (v, rest) =>
          match skipWs rest with
          | ',' :: r => parseItems fuel (skipWs r) (acc ++ [v])
          | ']' :: r => some (Json.arr (acc ++ [v]), r)
          | _ => none

/-- Parse the fields of a non-empty object, accumulating in order. -/
def parseFields : Nat → List Char → List (String × Json) →
    Option (Json × List Char)
  | 0, _, _ => none
  | fuel + 1, cs, acc =>
      match cs with
      | '"' :: rest =>
          match parseStrBody rest with
          | none => none
          | some (key, rest1) =>
              match skipWs rest1 with
              | ':' :: rest2 =>
                  match parseValue fuel (skipWs rest2) with
                  | none => none
                  | some (v, rest3) =>
                      match skipWs rest3 with
                      | ',' :: r => parseFields fuel (skipWs r) (acc ++ [(String.mk key, v)])
                      | '\x7d' :: r => some (Json.obj (acc ++ [(String.mk key, v)]), r)
                      | _ => none
              | _ => none
      | _ => none

end

/-- `json.loads`: one value, with surrounding whitespace allowed. -/
def loads (s : String) : Option Json :=
  match parseValue (s.length + 1) (skipWs s.data) with
  | some (v, rest) => if skipWs rest = [] then some v else none
  | none => none

mutual

/-- Size measure dominating the parser fuel the serialized form needs. -/
def jsize : Json → Nat
  | .arr xs => 2 + jsizeItems xs
  | .obj kvs => 2 + jsizeFields kvs
  | _ => 1

def jsizeItems : List Json → Nat
  | [] => 0
  | x :: xs => 2 + jsize x + jsizeItems xs

def jsizeFields : List (String × Json) → Nat
  | [] => 0
  | (_, v) :: kvs => 2 + jsize v + jsizeFields kvs

end

/-- `save_configuration` (slack_utils lines 545-574): the file system is
a map from paths to contents; saving writes the pretty-printed JSON at
the given path (directory creation and I/O errors are outside the
model). -/
def save_configuration (config : Json) (path : String)
    (fs : String → Option String) : String → Option String :=
  fun p => if p = path then some (dumps config) else fs p

/-- `load_configuration` (slack_utils lines 512-542): `\x7b\x7d` for a
missing or whitespace-only file, the parsed JSON otherwise, and a
`ConfigurationError` for malformed JSON. -/
def load_configuration (fs : String → Option String) (path : String) :
    Except Unit Json :=
  match fs path with
  | none => .ok (.obj [])
  | some content =>
      let c := pyStrip content
      if c = "" then .ok (.obj [])
      else
        match loads c with
        | some v => .ok v
        | none => .error ()

/-!
## Remaining definitions used by claim statements
-/

/-- Number of entries equal to the hook filename `f` in one hook-type
list. -/
def slackEntryCount (xs : List Json) (f : String) : Nat :=
  (xs.filter (fun j => Json.beq j (.str f))).length

/-- The managed hook script names. -/
def managedHooks : List String :=
  ["notification-slack.py", "posttooluse-slack.py", "stop-slack.py"]

/-- The settings invariant of the claim: no hook-type list holds more
than one entry for the same `*-slack.py` script name. -/
def NoDupSlack (s : List (String × Json)) : Prop :=
  ∀ ht hkvs xs f, jlookup s "hooks" = some (.obj hkvs) →
    jlookup hkvs ht = some (.arr xs) → f ∈ managedHooks →
    slackEntryCount xs f ≤ 1

/-- Python string repetition `s * n`. -/
def pyRepeatStr (s : String) : Nat → String
  | 0 => ""
  | n + 1 => s ++ pyRepeatStr s n

/-- The `"word " * 1000` test content of the truncation claim. -/
def wordContent : String := pyRepeatStr "word " 1000

/-- The post-state one registration step establishes for a hook file:
the file is unmanaged, or the `hooks` dictionary binds its hook type to
a value containing the file in Python's `in` sense. -/
def RegDone (hf : String) (s : List (String × Json)) : Prop :=
  ∀ ht, hookTypeOf hf = some ht →
    ∃ hkvs, jlookup s "hooks" = some (.obj hkvs) ∧
      ∃ v, jlookup hkvs ht = some v ∧ pyContainsStr v hf = .ok true

/-!
## Helper lemmas
-/

theorem jlookup_jset_self (kvs : List (String × Json)) (k : String) (v : Json) :
    jlookup (jset kvs k v) k = some v := by
  induction kvs with
  | nil => simp [jset, jlookup]
  | cons kv rest ih =>
      obtain ⟨a, b⟩ := kv
      by_cases h : a = k
      · simp [jset, jlookup, h]
      · simp [jset, jlookup, h, ih]

theorem jlookup_jset_ne (kvs : List (String × Json)) {k k' : String} (v : Json)
    (h : k' ≠ k) : jlookup (jset kvs k v) k' = jlookup kvs k' := by
  induction kvs with
  | nil => simp [jset, jlookup, Ne.symm h]
  | cons kv rest ih =>
      obtain ⟨a, b⟩ := kv
      by_cases hak : a = k
      · subst hak
        simp [jset, jlookup, Ne.symm h]
      · by_cases hak' : a = k'
        · simp [jset, jlookup, hak, hak', h]
        · simp [jset, jlookup, hak, hak', ih]

theorem string_append_assoc (a b c : String) : a ++ b ++ c = a ++ (b ++ c) := by
  cases a; cases b; cases c
  show String.append (String.append _ _) _ = String.append _ (String.append _ _)
  simp [String.append]

theorem string_nil_append (t : String) : "" ++ t = t := by
  cases t
  show String.append "" _ = _
  simp [String.append]

theorem pyRepeatStr_add (s : String) (a b : Nat) :
    pyRepeatStr s (a + b) = pyRepeatStr s a ++ pyRepeatStr s b := by
  induction a with
  | zero =>
      rw [Nat.zero_add]
      exact (string_nil_append _).symm
  | succ n ih =>
      have h : n + 1 + b = (n + b) + 1 := by omega
      rw [h]
      show s ++ pyRepeatStr s (n + b) = s ++ pyRepeatStr s n ++ pyRepeatStr s b
      rw [ih, string_append_assoc]

theorem beq_str_iff (j : Json) (h : String) :
    Json.beq j (.str h) = true ↔ j = .str h := by
  cases j <;> simp [Json.beq]

theorem digit_ne_minus {c : Char} (h : c.isDigit = true) : ¬ c = '-' := by
  intro he; subst he; exact absurd h (by decide)

theorem serNatAux_irrel (n : Nat) : ∀ fuel fuel', n < fuel → n < fuel' →
    serNatAux fuel n = serNatAux fuel' n := by
  induction n using Nat.strong_induction_on with
  | _ n ih =>
    intro fuel fuel' h h'
    match fuel, fuel' with
    | 0, _ => omega
    | _ + 1, 0 => omega
    | f + 1, f' + 1 =>
      simp only [serNatAux]
      by_cases h10 : n < 10
      · simp [h10]
      · simp only [h10, if_false]
        have hdiv : n / 10 < n := Nat.div_lt_self (by omega) (by omega)
        rw [ih (n / 10) hdiv f f' (by omega) (by omega)]

theorem serNat_lt {n : Nat} (h : n < 10) : serNat n = [digitChar n] := by
  simp [serNat, serNatAux, h]

theorem serNat_ge {n : Nat} (h : ¬ n < 10) :
    serNat n = serNat (n / 10) ++ [digitChar (n % 10)] := by
  show serNatAux (n + 1) n = serNatAux (n / 10 + 1) (n / 10) ++ [digitChar (n % 10)]
  rw [show serNatAux (n + 1) n = if n < 10 then [digitChar n]
      else serNatAux n (n / 10) ++ [digitChar (n % 10)] from rfl]
  rw [if_neg h]
  have hdiv : n / 10 < n := Nat.div_lt_self (by omega) (by omega)
  rw [serNatAux_irrel (n / 10) n (n / 10 + 1) (by omega) (by omega)]

theorem serNat_digits (n : Nat) : ∀ c ∈ serNat n, c.isDigit = true := by
  induction n using Nat.strong_induction_on with
  | _ n ih =>
    by_cases h : n < 10
    · rw [serNat_lt h]
      intro c hc
      simp only [List.mem_singleton] at hc
      subst hc
      interval_cases n <;> decide
    · rw [serNat_ge h]
      intro c hc
      rcases List.mem_append.mp hc with hc' | hc'
      · exact ih (n / 10) (Nat.div_lt_self (by omega) (by omega)) c hc'
      · simp only [List.mem_singleton] at hc'
        subst hc'
        have hm : n % 10 < 10 := Nat.mod_lt _ (by omega)
        set m := n % 10 with hmdef
        interval_cases m <;> decide

theorem serNat_ne_nil (n : Nat) : serNat n ≠ [] := by
  by_cases h : n < 10
  · rw [serNat_lt h]; simp
  · rw [serNat_ge h]; simp

theorem parseDigits_stop (acc : Nat) (rest : List Char)
    (h : ∀ c, rest.head? = some c → c.isDigit = false) :
    parseDigits acc rest = (acc, rest) := by
  cases rest with
  | nil => rfl
  | cons c t =>
      have hc := h c rfl
      simp [parseDigits, hc]

theorem parseDigits_serNat (n : Nat) : ∀ acc rest,
    parseDigits acc (serNat n ++ rest) =
      parseDigits (acc * 10 ^ (serNat n).length + n) rest := by
  induction n using Nat.strong_induction_on with
  | _ n ih =>
    intro acc rest
    by_cases h : n < 10
    · rw [serNat_lt h]
      have hd : (digitChar n).isDigit = true := by interval_cases n <;> decide
      have hval : (digitChar n).toNat - 48 = n := by interval_cases n <;> decide
      simp [parseDigits, hd, hval]
    · rw [serNat_ge h, List.append_assoc,
        ih (n / 10) (Nat.div_lt_self (by omega) (by omega))]
      have hm : n % 10 < 10 := Nat.mod_lt _ (by omega)
      have hd : (digitChar (n % 10)).isDigit = true := by
        set m := n % 10 with hmdef
        interval_cases m <;> decide
      have hval : (digitChar (n % 10)).toNat - '0'.toNat = n % 10 := by
        set m := n % 10 with hmdef
        interval_cases m <;> decide
      simp only [List.singleton_append, parseDigits, hd, if_pos, hval]
      congr 1
      rw [List.length_append, List.length_singleton, pow_succ]
      calc (acc * 10 ^ (serNat (n / 10)).length + n / 10) * 10 + n % 10
          = acc * (10 ^ (serNat (n / 10)).length * 10) + (10 * (n / 10) + n % 10) := by
            ring
        _ = acc * (10 ^ (serNat (n / 10)).length * 10) + n := by
            rw [Nat.div_add_mod]

theorem parseNum_serInt (i : Int) (rest : List Char)
    (h : ∀ c, rest.head? = some c → c.isDigit = false) :
    parseNum (serInt i ++ rest) = some (i, rest) := by
  obtain ⟨c, t, hc⟩ : ∃ c t, serNat i.natAbs = c :: t := by
    cases hh : serNat i.natAbs with
    | nil => exact absurd hh (serNat_ne_nil _)
    | cons c t => exact ⟨c, t, rfl⟩
  have hcdig : c.isDigit = true := serNat_digits _ c (by rw [hc]; exact List.mem_cons_self _ _)
  have hdigits : parseDigits 0 (serNat i.natAbs ++ rest) = (i.natAbs, rest) := by
    rw [parseDigits_serNat i.natAbs 0 rest]
    simp only [Nat.zero_mul, Nat.zero_add]
    exact parseDigits_stop _ _ h
  have hform : serNat i.natAbs ++ rest = c :: (t ++ rest) := by rw [hc]; rfl
  by_cases hi : i < 0
  · rw [serInt, if_pos hi]
    show parseNum ('-' :: (serNat i.natAbs ++ rest)) = some (i, rest)
    rw [hform]
    simp only [parseNum, if_pos rfl, hcdig, if_true]
    rw [← hform, hdigits]
    show some (-((i.natAbs : Nat) : Int), rest) = some (i, rest)
    rw [show -((i.natAbs : Nat) : Int) = i from by omega]
  · rw [serInt, if_neg hi]
    have habs : i.toNat = i.natAbs := by omega
    rw [habs, hform]
    simp only [parseNum, if_neg (digit_ne_minus hcdig), hcdig, if_true]
    rw [← hform, hdigits]
    show some (((i.natAbs : Nat) : Int), rest) = some (i, rest)
    rw [show ((i.natAbs : Nat) : Int) = i from by omega]

theorem decodeTime_encodeTime (t : Int) : decodeTime (encodeTime t) = some t := by
  unfold decodeTime encodeTime
  show (match parseNum (serInt t) with
    | some (i, []) => some i
    | _ => none) = some t
  rw [show serInt t = serInt t ++ [] from (List.append_nil _).symm,
    parseNum_serInt t [] (by intro c hc; simp at hc)]

theorem update_aggregation_last_notification (prior : FileRead) (now : Int)
    (sid tool desc : String) (written : Json)
    (h : update_aggregation_state prior now sid tool desc = some written) :
    ∃ kvs, written = .obj kvs ∧
      jget kvs "last_notification" (.str "") = .str (encodeTime now) := by
  have core : ∀ (state : Json), updateAggCore state now tool desc = some written →
      ∃ kvs, written = .obj kvs ∧
        jget kvs "last_notification" (.str "") = .str (encodeTime now) := by
    intro state hc
    unfold updateAggCore at hc
    split at hc
    case _ kvs =>
      split at hc
      case _ xs htools =>
        split at hc
        case _ => exact absurd hc (by simp)
        case _ n hcount =>
          simp only [Option.some.injEq] at hc
          refine ⟨_, hc.symm, ?_⟩
          unfold jget
          rw [jlookup_jset_ne _ _ (by decide), jlookup_jset_self]
          rfl
      case _ => exact absurd hc (by simp)
    case _ => exact absurd hc (by simp)
  exact core _ h

/-- The core of the PostToolUse ordering bug: once
`update_aggregation_state` has run (as `main` does before checking),
`should_aggregate_notification` reads back the timestamp that was just
written and therefore answers `true` whenever the configured timeout is
positive — regardless of when, or whether, a previous notification was
sent. -/
theorem update_then_check_aggregates (config : List (String × Json))
    (prior : FileRead) (now : Int) (sid tool desc : String) (written : Json)
    (tf : List (String × Json)) (timeout : Int)
    (hupd : update_aggregation_state prior now sid tool desc = some written)
    (htf : jget config "tool_filters" (.obj []) = .obj tf)
    (hto : pyIntOfJson (jget tf "aggregate_timeout" (.num 5)) = some timeout)
    (hpos : 0 < timeout) :
    should_aggregate_notification config (.content written) now = .ok true := by
  obtain ⟨kvs, hw, hln⟩ := update_aggregation_last_notification _ _ _ _ _ _ hupd
  subst hw
  unfold should_aggregate_notification
  rw [htf]
  simp only [hto]
  rw [if_neg (by omega)]
  simp only [hln, decodeTime_encodeTime]
  simp only [Int.sub_self, Except.ok.injEq, decide_eq_true_eq]
  exact hpos

/-!
## Claim C9
-/

/-- Claim C9: `send_webhook` never raises: it always returns a
structured result; on failure it retries up to 3 attempts in total,
sleeping `2 ^ attempt` seconds between failed attempts (1s after the
first failure, 2s after the second, none after the final one), and when
all three attempts fail it returns `success = false` with the status
code or error detail of the final attempt. -/
theorem C9_send_webhook_retry (p : Except String Unit) (att : Nat → AttemptOutcome) :
    (∀ e, p = .error e →
      send_webhook p att = (⟨false, 0, "Request preparation failed: " ++ e⟩, [])) ∧
    (p = .ok () →
      ((∀ i, i < 3 → isAttemptSuccess (att i) = false) →
        send_webhook p att = (attemptResult (att 2), [1, 2]) ∧
          (send_webhook p att).1.success = false) ∧
      (∀ k, k < 3 → isAttemptSuccess (att k) = true →
        (∀ j, j < k → isAttemptSuccess (att j) = false) →
          send_webhook p att = (attemptResult (att k), (List.range k).map (2 ^ ·)) ∧
            (send_webhook p att).1.success = true)) := by
  constructor
  · intro e he; subst he; rfl
  · intro hp; subst hp
    constructor
    · intro hf
      have h0 := hf 0 (by omega)
      have h1 := hf 1 (by omega)
      have h2 := hf 2 (by omega)
      cases e0 : att 0 <;> rw [e0] at h0 <;> simp [isAttemptSuccess] at h0 <;>
        cases e1 : att 1 <;> rw [e1] at h1 <;> simp [isAttemptSuccess] at h1 <;>
          cases e2 : att 2 <;> rw [e2] at h2 <;> simp [isAttemptSuccess] at h2 <;>
            simp [send_webhook, sendLoop, e0, e1, e2, attemptResult, List.range_succ]
    · intro k hk hs hmin
      interval_cases k
      · cases e0 : att 0 <;> rw [e0] at hs <;> simp [isAttemptSuccess] at hs <;>
          simp [send_webhook, sendLoop, e0, attemptResult]
      · have h0 := hmin 0 (by omega)
        cases e0 : att 0 <;> rw [e0] at h0 <;> simp [isAttemptSuccess] at h0 <;>
          cases e1 : att 1 <;> rw [e1] at hs <;> simp [isAttemptSuccess] at hs <;>
            simp [send_webhook, sendLoop, e0, e1, attemptResult, List.range_succ]
      · have h0 := hmin 0 (by omega)
        have h1 := hmin 1 (by omega)
        cases e0 : att 0 <;> rw [e0] at h0 <;> simp [isAttemptSuccess] at h0 <;>
          cases e1 : att 1 <;> rw [e1] at h1 <;> simp [isAttemptSuccess] at h1 <;>
            cases e2 : att 2 <;> rw [e2] at hs <;> simp [isAttemptSuccess] at hs <;>
              simp [send_webhook, sendLoop, e0, e1, e2, attemptResult, List.range_succ]

/-- Witness for C9: with every attempt failing as HTTP 500, the result
is the structured failure carrying the final attempt's detail, after
sleeping 1s and then 2s. -/
theorem C9_send_webhook_retry_witness :
    send_webhook (.ok ()) (fun _ => .httpError 500 "Server Error") =
      (⟨false, 500, "HTTP 500: Server Error"⟩, [1, 2]) := by
  have h := (C9_send_webhook_retry (.ok ())
    (fun _ => .httpError 500 "Server Error")).2 rfl
  have h2 := h.1 (fun i _ => rfl)
  simpa [attemptResult] using h2.1

/-!
## Claim C10
-/

/-- Claim C10: whenever `update_aggregation_state` writes a state —
whatever the previous file held — the written state's `tools` list has
length at most 10 and ends with the record of the tool just processed. -/
theorem C10_update_aggregation_invariant (prior : FileRead) (now : Int)
    (sid tool desc : String) (st : Json)
    (h : update_aggregation_state prior now sid tool desc = some st) :
    ∃ kvs xs, st = .obj kvs ∧ jlookup kvs "tools" = some (.arr xs) ∧
      xs.length ≤ 10 ∧ xs.getLast? = some (newToolRecord tool desc now) := by
  have core : ∀ (state : Json), updateAggCore state now tool desc = some st →
      ∃ kvs xs, st = .obj kvs ∧ jlookup kvs "tools" = some (.arr xs) ∧
        xs.length ≤ 10 ∧ xs.getLast? = some (newToolRecord tool desc now) := by
    intro state hc
    unfold updateAggCore at hc
    split at hc
    case _ kvs =>
      split at hc
      case _ xs htools =>
        split at hc
        case _ => exact absurd hc (by simp)
        case _ n hcount =>
          simp only [Option.some.injEq] at hc
          refine ⟨_, pyLastN 10 (xs ++ [newToolRecord tool desc now]), hc.symm, ?_, ?_, ?_⟩
          · rw [jlookup_jset_ne _ _ (by decide), jlookup_jset_ne _ _ (by decide),
              jlookup_jset_self]
          · simp only [pyLastN, List.length_drop, List.length_append,
              List.length_cons, List.length_nil]
            omega
          · have hlen : xs.length + 1 - 10 ≤ xs.length := by omega
            unfold pyLastN
            rw [List.length_append]
            simp only [List.length_cons, List.length_nil]
            rw [List.drop_append_of_le_length hlen]
            exact List.getLast?_concat _
      case _ => exact absurd hc (by simp)
    case _ => exact absurd hc (by simp)
  exact core _ h

/-- Witness for C10: a fresh session (no previous state file). -/
theorem C10_update_aggregation_invariant_witness :
    ∃ kvs xs, update_aggregation_state .absent 0 "s" "Write" "d" =
        some (.obj kvs) ∧ jlookup kvs "tools" = some (.arr xs) ∧
      xs.length ≤ 10 ∧ xs.getLast? = some (newToolRecord "Write" "d" 0) := by
  obtain ⟨kvs, xs, h1, h2, h3, h4⟩ :=
    C10_update_aggregation_invariant .absent 0 "s" "Write" "d" _ rfl
  exact ⟨kvs, xs, by rw [← h1]; rfl, h2, h3, h4⟩

/-!
## Claim C3
-/

/-- Claim C3 counterexample: the validator accepts the workflows-shape
URL, but `mask_webhook_url` returns the sentinel instead of the URL with
its trailing token segment replaced by `...`. -/
theorem C3_counterexample :
    is_valid_webhook_url "https://hooks.slack.com/workflows/T123/A456/abc/def" = true ∧
    mask_webhook_url "https://hooks.slack.com/workflows/T123/A456/abc/def" = "Invalid URL" ∧
    mask_webhook_url "https://hooks.slack.com/workflows/T123/A456/abc/def" ≠
      "https://hooks.slack.com/workflows/T123/A456/abc/..." := by
  refine ⟨by decide, by decide, by decide⟩

/-- Claim C3 as amended: `mask_webhook_url` returns the canonical masked
form `https://hooks.slack.com/services/<team>/<bot>/...` exactly for
inputs matching the services shape (under the source's `re.match`
semantics); for every other input — including workflows-shape URLs the
validator accepts — it returns the sentinel `"Invalid URL"`. -/
theorem C3_mask_amended (url : String) :
    (∀ team bot tok, servicesGroups (pyDollarInput url.data) = some (team, bot, tok) →
      mask_webhook_url url =
        "https://hooks.slack.com/services/" ++ team ++ "/" ++ bot ++ "/...") ∧
    (servicesGroups (pyDollarInput url.data) = none →
      mask_webhook_url url = "Invalid URL") := by
  constructor
  · intro team bot tok hsg
    by_cases hu : url = ""
    · subst hu
      have hnone : servicesGroups (pyDollarInput "".data) = none := by decide
      rw [hnone] at hsg
      exact absurd hsg (by simp)
    · have hval : is_valid_webhook_url url = true := by
        unfold is_valid_webhook_url
        rw [if_neg hu, hsg]
        rfl
      simp [mask_webhook_url, parse_webhook_url_components, hval, hsg]
  · intro hnone
    by_cases hu : url = ""
    · subst hu; rfl
    · by_cases hv : is_valid_webhook_url url = true
      · simp [mask_webhook_url, parse_webhook_url_components, hv, hnone]
      · simp [mask_webhook_url, hv]

/-- Witness for C3's amended theorem at a concrete services URL. -/
theorem C3_mask_amended_witness :
    mask_webhook_url "https://hooks.slack.com/services/T1/B2/c" =
      "https://hooks.slack.com/services/T1/B2/..." := by
  have h := (C3_mask_amended "https://hooks.slack.com/services/T1/B2/c").1
    "T1" "B2" "c" (by decide)
  simpa using h

/-!
## Claim C7
-/

/-- Claim C7 counterexample: with `max_length = 25` and the last space at
index 20 — exactly 80% of `max_length` — the claim's "no earlier than
80%" rule backtracks, but the source's strict `>` comparison does not:
the code keeps the partial word `b`. -/
theorem C7_counterexample :
    truncate_message_content (.str "aaaaaaaaaaaaaaaaaaaa bcccc") 25 =
      "aaaaaaaaaaaaaaaaaaaa b..." ∧
    truncateStrClaimed "aaaaaaaaaaaaaaaaaaaa bcccc" 25 =
      "aaaaaaaaaaaaaaaaaaaa..." ∧
    truncate_message_content (.str "aaaaaaaaaaaaaaaaaaaa bcccc") 25 ≠
      truncateStrClaimed "aaaaaaaaaaaaaaaaaaaa bcccc" 25 := by
  refine ⟨by decide, by decide, by decide⟩

theorem wordContent_split :
    wordContent =
      "word word word word word word word word word word " ++ pyRepeatStr "word " 990 := by
  have h : pyRepeatStr "word " 1000 = pyRepeatStr "word " 10 ++ pyRepeatStr "word " 990 :=
    pyRepeatStr_add "word " 10 990
  have h10 : pyRepeatStr "word " 10 =
      "word word word word word word word word word word " := by decide
  rw [wordContent, h, h10]

theorem wordContent_truncate_eval :
    truncate_message_content (.str wordContent) 50 =
      "word word word word word word word word word..." := by
  have hlen : ¬ ((wordContent.length : Int) ≤ 50) := by
    rw [wordContent_split, String.length_append,
      show (990 : Nat) = 1 + 989 from rfl, pyRepeatStr_add, String.length_append]
    have h50 : ("word word word word word word word word word word " : String).length = 50 := by
      decide
    have h1 : (pyRepeatStr "word " 1).length = 5 := by decide
    rw [h50, h1]
    push_cast
    omega
  have hdata : wordContent.data.take 47 =
      ("word word word word word word word word word wo" : String).data := by
    rw [wordContent_split, String.data_append,
      List.take_append_of_le_length (by decide)]
    decide
  have hcut : pySliceTo wordContent.data (50 - 3) =
      ("word word word word word word word word word wo" : String).data := by
    have h47 : ((50 : Int) - 3).toNat = 47 := by decide
    simp only [pySliceTo, if_pos (by decide : (0 : Int) ≤ 50 - 3), h47, hdata]
  simp only [truncate_message_content, truncateStr, pyValStr]
  rw [if_neg hlen, hcut]
  decide

/-- Claim C7 as amended: `truncate_message_content` returns `""` for
`None` and the content unchanged when within `max_length`; otherwise it
cuts at `max_length - 3`, backtracks to the nearest preceding space when
that space lies STRICTLY LATER than 80% of `max_length` (the source
compares with `>`, not `≥`), and appends `"..."`, keeping the result
within `max_length`; on `"word " * 1000` with `max_length = 50` the
result is 47 characters, ends in `"..."`, and does not split the last
retained word. -/
theorem C7_truncate_amended :
    (∀ m : Int, truncate_message_content .nonePy m = "") ∧
    (∀ (s : String) (m : Int), (s.length : Int) ≤ m →
      truncate_message_content (.str s) m = s) ∧
    (∀ (s : String) (m : Int), 3 ≤ m → m < (s.length : Int) →
      (truncate_message_content (.str s) m).length ≤ m.toNat ∧
      truncate_message_content (.str s) m =
        String.mk (let cut := s.data.take (m - 3).toNat
                   let ls := pyRfind ' ' cut
                   if 5 * ls > 4 * m then cut.take ls.toNat else cut) ++ "...") ∧
    (truncate_message_content (.str wordContent) 50 =
      "word word word word word word word word word..." ∧
    (truncate_message_content (.str wordContent) 50).length ≤ 50) := by
  refine ⟨fun m => rfl, ?_, ?_, wordContent_truncate_eval,
    by rw [wordContent_truncate_eval]; decide⟩
  · intro s m h
    simp [truncate_message_content, truncateStr, pyValStr, h]
  · intro s m h3 hlt
    have hnotle : ¬ ((s.length : Int) ≤ m) := by omega
    have hpos : (0 : Int) ≤ m - 3 := by omega
    have hcut : pySliceTo s.data (m - 3) = s.data.take (m - 3).toNat := by
      simp [pySliceTo, hpos]
    constructor
    · simp only [truncate_message_content, truncateStr, pyValStr, if_neg hnotle, hcut]
      split
      case isTrue hgt =>
        have hls : 0 ≤ pyRfind ' ' (s.data.take (m - 3).toNat) := by
          unfold pyRfind at hgt ⊢
          cases hli : lastIdxOf ' ' (s.data.take (m - 3).toNat) with
          | none => rw [hli] at hgt; omega
          | some i => simp
        have hsl : pySliceTo (s.data.take (m - 3).toNat) (pyRfind ' ' (s.data.take (m - 3).toNat)) =
            (s.data.take (m - 3).toNat).take (pyRfind ' ' (s.data.take (m - 3).toNat)).toNat := by
          simp [pySliceTo, hls]
        rw [hsl]
        have : (String.mk ((s.data.take (m - 3).toNat).take
            (pyRfind ' ' (s.data.take (m - 3).toNat)).toNat) ++ "...").length =
            ((s.data.take (m - 3).toNat).take
              (pyRfind ' ' (s.data.take (m - 3).toNat)).toNat).length + 3 := by
          simp [String.length_append]
          rfl
        rw [this]
        have h1 : ((s.data.take (m - 3).toNat).take
            (pyRfind ' ' (s.data.take (m - 3).toNat)).toNat).length ≤ (m - 3).toNat := by
          rw [List.length_take, List.length_take]
          omega
        omega
      case isFalse hng =>
        have : (String.mk (s.data.take (m - 3).toNat) ++ "...").length =
            (s.data.take (m - 3).toNat).length + 3 := by
          simp [String.length_append]
          rfl
        rw [this]
        have h1 : (s.data.take (m - 3).toNat).length ≤ (m - 3).toNat := by
          rw [List.length_take]
          omega
        omega
    · simp only [truncate_message_content, truncateStr, pyValStr, if_neg hnotle, hcut]
      split
      case isTrue hgt =>
        have hls : 0 ≤ pyRfind ' ' (s.data.take (m - 3).toNat) := by
          unfold pyRfind at hgt ⊢
          cases hli : lastIdxOf ' ' (s.data.take (m - 3).toNat) with
          | none => rw [hli] at hgt; omega
          | some i => simp
        simp [pySliceTo, hls, hgt]
      case isFalse hng =>
        simp [hng]

/-- Witness for C7's amended theorem: the short-content and
over-length branches applied at concrete inputs. -/
theorem C7_truncate_amended_witness :
    truncate_message_content (.str "abc") 5 = "abc" ∧
    (truncate_message_content (.str "hello world this is a test") 20).length ≤ 20 := by
  refine ⟨C7_truncate_amended.2.1 "abc" 5 (by decide), ?_⟩
  have h := (C7_truncate_amended.2.2.1 "hello world this is a test" 20
    (by decide) (by decide)).1
  simpa using h

/-!
## Claim C1
-/

/-- Claim C1 (refuted; the code has the bug): with the configuration
exactly as the setup handler produces it — `version = "1.0"`, a valid
`webhook_url`, `active = true`, and no `enabled` key — the Stop hook's
`load_config` reads the legacy key `enabled`, treats the integration as
disabled, and `main` exits 0 WITHOUT posting anything, for every network
behaviour and clock, on the exact stdin of the claim
(`session_id = "s1"`, `hook_event_name = "Stop"`,
`stop_hook_active = false`, empty existing transcript). -/
theorem C1_stop_hook_setup_config_silently_skips (att : Nat → AttemptOutcome)
    (now : Int) :
    jlookup (create_configuration
        [("webhook_url", .str "https://hooks.slack.com/services/T123/B456/tok")] [])
      "active" = some (.bool true) ∧
    jlookup (create_configuration
        [("webhook_url", .str "https://hooks.slack.com/services/T123/B456/tok")] [])
      "version" = some (.str "1.0") ∧
    is_valid_webhook_url "https://hooks.slack.com/services/T123/B456/tok" = true ∧
    load_config (.content (.obj (create_configuration
        [("webhook_url", .str "https://hooks.slack.com/services/T123/B456/tok")] []))) =
      none ∧
    stopMain ⟨"s1", "/tmp/transcript.jsonl", "Stop", false⟩
      (.content (.obj (create_configuration
        [("webhook_url", .str "https://hooks.slack.com/services/T123/B456/tok")] [])))
      (some []) now att = (0, []) := by
  exact ⟨rfl, rfl, by decide, rfl, rfl⟩

/-!
## Claim C2
-/

/-- Claim C2 (refuted; the code has the bug): on the very first
PostToolUse event of a session — no aggregation state exists, so no
notification was ever sent, let alone within the 5-second default
window — the hook still sends the AGGREGATED message, not an individual
tool-use message, because `main` calls `update_aggregation_state` first
and `should_aggregate_notification` then reads back the timestamp just
written.  Evaluated end to end at the concrete failing input. -/
theorem C2_posttooluse_first_event_sends_aggregated :
    ∃ written payload,
      update_aggregation_state .absent 0 "sess-1" "Write"
        "📝 Created file1.py (5 chars)" = some written ∧
      should_aggregate_notification
        [("version", .str "1.0"), ("enabled", .bool true),
         ("webhook_url", .str "https://hooks.slack.com/services/T123/B456/tok")]
        (.content written) 0 = .ok true ∧
      create_aggregated_message "sess-1" "Write" "📝 Created file1.py (5 chars)"
        (.str "Unknown Project") (.content written) 0 = .ok payload ∧
      posttooluseMain
        ⟨"sess-1", "Write",
         .obj [("file_path", .str "/test/file1.py"), ("content", .str "code1")],
         .obj [("success", .bool true)], "PostToolUse"⟩
        (.content (.obj [("version", .str "1.0"), ("enabled", .bool true),
          ("webhook_url", .str "https://hooks.slack.com/services/T123/B456/tok")]))
        .absent 0 (fun _ => .success 200 "ok") = ⟨0, [payload], some written⟩ ∧
      (∃ blocks, payload = .obj
        [("text", .str "Claude Code activity: 📝 Created file1.py (5 chars)"),
         ("blocks", blocks)]) := by
  exact ⟨_, _, rfl, rfl, rfl, rfl, ⟨_, rfl⟩⟩

/-!
## Claim C4
-/

theorem filteredHooks_keys (rm : List String) (hkvs : List (String × Json)) :
    (filteredHooks rm hkvs).map Prod.fst = hkvs.map Prod.fst := by
  unfold filteredHooks
  rw [List.map_map]
  apply List.map_congr_left
  intro kv _
  obtain ⟨k, v⟩ := kv
  cases v <;> rfl

theorem filteredHooks_id (rm : List String) (hkvs : List (String × Json))
    (h : anyHookRemoved rm hkvs = false) : filteredHooks rm hkvs = hkvs := by
  unfold filteredHooks
  unfold anyHookRemoved at h
  rw [List.any_eq_false] at h
  conv_rhs => rw [show hkvs = hkvs.map id from (List.map_id hkvs).symm]
  apply List.map_congr_left
  intro kv hm
  have hkv := h kv hm
  obtain ⟨k, v⟩ := kv
  cases v with
  | arr xs =>
      simp only at hkv ⊢
      have hall : ∀ j ∈ xs, ¬ removedEntry rm j = true := by
        intro j hj hc
        exact hkv (List.any_eq_true.mpr ⟨j, hj, hc⟩)
      have hfil : xs.filter (fun j => !removedEntry rm j) = xs := by
        apply List.filter_eq_self.mpr
        intro j hj
        cases hcc : removedEntry rm j
        · rfl
        · exact absurd hcc (hall j hj)
      rw [hfil]
      rfl
  | null => rfl
  | bool b => rfl
  | num n => rfl
  | str s => rfl
  | obj o => rfl

/-- Claim C4 counterexample: removing the only entry of the `stop`
hook-type leaves the `stop` key present, bound to an empty array — the
key is NOT deleted from the saved settings as the claim states. -/
theorem C4_counterexample :
    unregister_hooks_from_settings ["stop-slack.py"]
      [("hooks", .obj [("stop", .arr [.str "stop-slack.py"])])] =
      .ok (true, [("hooks", .obj [("stop", .arr [])])]) ∧
    jlookup [("stop", (.arr [] : Json))] "stop" = some (.arr []) :=
  ⟨rfl, rfl⟩

/-- Claim C4 as amended: for a settings document whose `hooks` value is a
dictionary, `unregister_hooks_from_settings` removes exactly the entries
named in the list from every hook-type list, returns `true` exactly when
at least one entry was removed, preserves every other top-level key, and
KEEPS an emptied hook-type key bound to an empty array (it never deletes
the key, contrary to the claim). -/
theorem C4_unregister_amended (rm : List String) (s hkvs : List (String × Json))
    (h : jlookup s "hooks" = some (.obj hkvs)) :
    ∃ out, unregister_hooks_from_settings rm s = .ok (anyHookRemoved rm hkvs, out) ∧
      jlookup out "hooks" = some (.obj (filteredHooks rm hkvs)) ∧
      (filteredHooks rm hkvs).map Prod.fst = hkvs.map Prod.fst ∧
      (∀ k, k ≠ "hooks" → jlookup out k = jlookup s k) ∧
      (anyHookRemoved rm hkvs = true ↔
        ∃ kv, kv ∈ hkvs ∧ ∃ xs, kv.2 = Json.arr xs ∧
          ∃ j, j ∈ xs ∧ removedEntry rm j = true) := by
  have hiff : anyHookRemoved rm hkvs = true ↔
      ∃ kv, kv ∈ hkvs ∧ ∃ xs, kv.2 = Json.arr xs ∧
        ∃ j, j ∈ xs ∧ removedEntry rm j = true := by
    unfold anyHookRemoved
    rw [List.any_eq_true]
    constructor
    · rintro ⟨kv, hm, hp⟩
      refine ⟨kv, hm, ?_⟩
      obtain ⟨k, v⟩ := kv
      cases v with
      | arr xs =>
          simp only at hp
          rw [List.any_eq_true] at hp
          obtain ⟨j, hj, hr⟩ := hp
          exact ⟨xs, rfl, j, hj, hr⟩
      | null => exact absurd hp (by simp)
      | bool b => exact absurd hp (by simp)
      | num n => exact absurd hp (by simp)
      | str t => exact absurd hp (by simp)
      | obj o => exact absurd hp (by simp)
    · rintro ⟨kv, hm, xs, hx, j, hj, hr⟩
      refine ⟨kv, hm, ?_⟩
      rw [hx]
      simp only
      rw [List.any_eq_true]
      exact ⟨j, hj, hr⟩
  unfold unregister_hooks_from_settings
  rw [h]
  by_cases hch : anyHookRemoved rm hkvs = true
  · refine ⟨jset s "hooks" (.obj (filteredHooks rm hkvs)), ?_, ?_, filteredHooks_keys rm hkvs, ?_, hiff⟩
    · simp [hch]
    · rw [jlookup_jset_self]
    · intro k hk
      exact jlookup_jset_ne _ _ hk
  · have hch' : anyHookRemoved rm hkvs = false := by
      cases hcc : anyHookRemoved rm hkvs
      · rfl
      · exact absurd hcc hch
    refine ⟨s, ?_, ?_, filteredHooks_keys rm hkvs, fun k _ => rfl, hiff⟩
    · simp [hch']
    · rw [filteredHooks_id rm hkvs hch']
      exact h

/-- Witness for C4's amended theorem at a concrete settings document
with one managed entry, one foreign entry and an unrelated key. -/
theorem C4_unregister_amended_witness :
    ∃ out, unregister_hooks_from_settings ["stop-slack.py"]
        [("other", .num 7),
         ("hooks", .obj [("stop", .arr [.str "stop-slack.py", .str "keep.py"])])] =
      .ok (anyHookRemoved ["stop-slack.py"]
            [("stop", .arr [.str "stop-slack.py", .str "keep.py"])], out) ∧
      jlookup out "hooks" = some (.obj (filteredHooks ["stop-slack.py"]
        [("stop", .arr [.str "stop-slack.py", .str "keep.py"])])) := by
  obtain ⟨out, h1, h2, _, _, _⟩ := C4_unregister_amended ["stop-slack.py"]
    [("other", .num 7),
     ("hooks", .obj [("stop", .arr [.str "stop-slack.py", .str "keep.py"])])]
    [("stop", .arr [.str "stop-slack.py", .str "keep.py"])] rfl
  exact ⟨out, h1, h2⟩

/-!
## Claim C6
-/

theorem dropLit_some (lit : List Char) : ∀ cs r, dropLit lit cs = some r → cs = lit ++ r := by
  induction lit with
  | nil => intro cs r h; simp [dropLit] at h; simp [h]
  | cons l ls ih =>
      intro cs r h
      cases cs with
      | nil => simp [dropLit] at h
      | cons c cs' =>
          simp only [dropLit] at h
          by_cases hc : c = l
          · rw [if_pos hc] at h
            subst hc
            simp [ih cs' r h]
          · rw [if_neg hc] at h
            exact absurd h (by simp)

theorem takeRun1_some (p : Char → Bool) : ∀ cs run rest,
    takeRun1 p cs = some (run, rest) →
    cs = run ++ rest ∧ run ≠ [] ∧ ∀ c ∈ run, p c = true := by
  intro cs
  induction cs with
  | nil => intro run rest h; simp [takeRun1] at h
  | cons c cs' ih =>
      intro run rest h
      simp only [takeRun1] at h
      by_cases hp : p c
      · rw [if_pos hp] at h
        cases htr : takeRun1 p cs' with
        | some pr =>
            rw [htr] at h
            simp only [Option.some.injEq, Prod.mk.injEq] at h
            obtain ⟨h1, h2⟩ := h
            obtain ⟨hcs, _, hall⟩ := ih pr.1 pr.2 (by rw [htr])
            subst h2
            refine ⟨?_, by simp [← h1], ?_⟩
            · rw [← h1]; simp [hcs]
            · intro x hx
              rw [← h1] at hx
              rcases List.mem_cons.mp hx with hx' | hx'
              · rw [hx']; exact hp
              · exact hall x hx'
        | none =>
            rw [htr] at h
            simp only [Option.some.injEq, Prod.mk.injEq] at h
            obtain ⟨h1, h2⟩ := h
            subst h2
            refine ⟨by simp [← h1], by simp [← h1], ?_⟩
            intro x hx
            rw [← h1] at hx
            simp only [List.mem_singleton] at hx
            rw [hx]; exact hp
      · rw [if_neg hp] at h
        exact absurd h (by simp)

theorem segMatch_some (lead : Char) (p : Char → Bool) (cs seg rest : List Char)
    (h : segMatch lead p cs = some (seg, rest)) :
    cs = seg ++ rest ∧ ∃ tail, seg = lead :: tail ∧ ∀ c ∈ tail, p c = true := by
  cases cs with
  | nil => simp [segMatch] at h
  | cons c cs' =>
      simp only [segMatch] at h
      by_cases hc : c = lead
      · rw [if_pos hc] at h
        cases htr : takeRun1 p cs' with
        | none => rw [htr] at h; exact absurd h (by simp)
        | some pr =>
            rw [htr] at h
            simp only [Option.some.injEq, Prod.mk.injEq] at h
            obtain ⟨h1, h2⟩ := h
            obtain ⟨hcs, _, hall⟩ := takeRun1_some p cs' pr.1 pr.2 (by rw [htr])
            subst hc h2
            exact ⟨by simp [← h1, hcs], pr.1, h1.symm, hall⟩
      · rw [if_neg hc] at h
        exact absurd h (by simp)

/-- Structure of an accepted services URL. -/
theorem servicesGroups_decomp (cs : List Char) (g : String × String × String)
    (h : servicesGroups cs = some g) :
    ∃ t1 t2 t3, cs = servicesHead ++ ('T' :: t1) ++ '/' :: ('B' :: t2) ++ '/' :: t3 ∧
      (∀ c ∈ t1, isUpperDigit c = true) ∧ (∀ c ∈ t2, isUpperDigit c = true) ∧
      (∀ c ∈ t3, isAlnum c = true) ∧ t3 ≠ [] := by
  unfold servicesGroups at h
  split at h
  · exact absurd h (by simp)
  · rename_i r1 hdl
    have hcs := dropLit_some _ _ _ hdl
    split at h
    · exact absurd h (by simp)
    · rename_i team r2 hs1
      obtain ⟨hr1, tail1, hseg1, hall1⟩ := segMatch_some _ _ _ _ _ hs1
      split at h
      · rename_i r3
        split at h
        · exact absurd h (by simp)
        · rename_i bot r4 hs2
          obtain ⟨hr3, tail2, hseg2, hall2⟩ := segMatch_some _ _ _ _ _ hs2
          split at h
          · rename_i r5
            split at h
            · rename_i tok htk
              obtain ⟨hr5, hne, hall3⟩ := takeRun1_some _ _ _ _ htk
              refine ⟨tail1, tail2, tok, ?_, hall1, hall2, hall3, hne⟩
              rw [hcs, hr1, hseg1, hr3, hseg2, hr5]
              simp
            · exact absurd h (by simp)
          · exact absurd h (by simp)
      · exact absurd h (by simp)

/-- Structure of an accepted workflows URL. -/
theorem workflowsMatch_decomp (cs : List Char) (h : workflowsMatch cs = true) :
    ∃ t1 t2 t3 t4, cs = workflowsHead ++ ('T' :: t1) ++ '/' :: ('A' :: t2) ++
        '/' :: t3 ++ '/' :: t4 ∧
      (∀ c ∈ t1, isUpperDigit c = true) ∧ (∀ c ∈ t2, isUpperDigit c = true) ∧
      (∀ c ∈ t3, isAlnum c = true) ∧ (∀ c ∈ t4, isAlnum c = true) ∧ t4 ≠ [] := by
  unfold workflowsMatch at h
  split at h
  · exact absurd h (by simp)
  · rename_i r1 hdl
    have hcs := dropLit_some _ _ _ hdl
    split at h
    · exact absurd h (by simp)
    · rename_i team r2 hs1
      obtain ⟨hr1, tail1, hseg1, hall1⟩ := segMatch_some _ _ _ _ _ hs1
      split at h
      · rename_i r3
        split at h
        · exact absurd h (by simp)
        · rename_i aseg r4 hs2
          obtain ⟨hr3, tail2, hseg2, hall2⟩ := segMatch_some _ _ _ _ _ hs2
          split at h
          · rename_i r5
            split at h
            · rename_i tok3 r6 htk
              obtain ⟨hr5, hne3, hall3⟩ := takeRun1_some _ _ _ _ htk
              split at h
              · rename_i tok4 htk4
                obtain ⟨hr6, hne4, hall4⟩ := takeRun1_some _ _ _ _ htk4
                refine ⟨tail1, tail2, tok3, tok4, ?_, hall1, hall2, hall3, hall4, hne4⟩
                rw [hcs, hr1, hseg1, hr3, hseg2, hr5, hr6]
                simp
              · exact absurd h (by simp)
            · exact absurd h (by simp)
          · exact absurd h (by simp)
      · exact absurd h (by simp)

theorem upperDigit_char_safe {c : Char} (h : isUpperDigit c = true) :
    ¬ c = '?' ∧ ¬ c = '#' ∧ ¬ c = ' ' ∧ ¬ c = '\n' := by
  refine ⟨?_, ?_, ?_, ?_⟩ <;> (intro he; subst he; exact absurd h (by decide))

theorem alnum_char_safe {c : Char} (h : isAlnum c = true) :
    ¬ c = '?' ∧ ¬ c = '#' ∧ ¬ c = ' ' ∧ ¬ c = '\n' := by
  refine ⟨?_, ?_, ?_, ?_⟩ <;> (intro he; subst he; exact absurd h (by decide))

/-- Every character of a URL either regex accepts is from its literal
head, a segment lead, a slash, or a character class — so never `?`, `#`,
a space, or a newline; and the URL starts with the Slack domain. -/
theorem core_prefix_and_safe (cs : List Char)
    (h : ((servicesGroups cs).isSome || workflowsMatch cs) = true) :
    (∃ r, cs = "https://hooks.slack.com/".data ++ r) ∧
    ∀ c ∈ cs, ¬ c = '?' ∧ ¬ c = '#' ∧ ¬ c = ' ' ∧ ¬ c = '\n' := by
  rcases Bool.or_eq_true_iff.mp h with hsv | hwf
  · obtain ⟨g, hg⟩ := Option.isSome_iff_exists.mp hsv
    obtain ⟨t1, t2, t3, hcs, h1, h2, h3, _⟩ := servicesGroups_decomp cs g hg
    constructor
    · refine ⟨"services/".data ++ ('T' :: t1) ++ '/' :: ('B' :: t2) ++ '/' :: t3, ?_⟩
      rw [hcs, show servicesHead = "https://hooks.slack.com/".data ++ "services/".data
        from by decide]
      simp
    · intro c hc
      rw [hcs] at hc
      rcases List.mem_append.mp hc with hm | hm
      case _ =>
        rcases List.mem_append.mp hm with hm | hm
        case _ =>
          rcases List.mem_append.mp hm with hm | hm
          · exact (by decide : ∀ c ∈ servicesHead,
              ¬ c = '?' ∧ ¬ c = '#' ∧ ¬ c = ' ' ∧ ¬ c = '\n') c hm
          · rcases List.mem_cons.mp hm with hm | hm
            · subst hm; exact ⟨by decide, by decide, by decide, by decide⟩
            · exact upperDigit_char_safe (h1 c hm)
        case _ =>
          rcases List.mem_cons.mp hm with hm | hm
          · subst hm; exact ⟨by decide, by decide, by decide, by decide⟩
          rcases List.mem_cons.mp hm with hm | hm
          · subst hm; exact ⟨by decide, by decide, by decide, by decide⟩
          · exact upperDigit_char_safe (h2 c hm)
      case _ =>
        rcases List.mem_cons.mp hm with hm | hm
        · subst hm; exact ⟨by decide, by decide, by decide, by decide⟩
        · exact alnum_char_safe (h3 c hm)
  · obtain ⟨t1, t2, t3, t4, hcs, h1, h2, h3, h4, _⟩ := workflowsMatch_decomp cs hwf
    constructor
    · refine ⟨"workflows/".data ++ ('T' :: t1) ++ '/' :: ('A' :: t2) ++
        '/' :: t3 ++ '/' :: t4, ?_⟩
      rw [hcs, show workflowsHead = "https://hooks.slack.com/".data ++ "workflows/".data
        from by decide]
      simp
    · intro c hc
      rw [hcs] at hc
      rcases List.mem_append.mp hc with hm | hm
      case _ =>
        rcases List.mem_append.mp hm with hm | hm
        case _ =>
          rcases List.mem_append.mp hm with hm | hm
          case _ =>
            rcases List.mem_append.mp hm with hm | hm
            · exact (by decide : ∀ c ∈ workflowsHead,
                ¬ c = '?' ∧ ¬ c = '#' ∧ ¬ c = ' ' ∧ ¬ c = '\n') c hm
            · rcases List.mem_cons.mp hm with hm | hm
              · subst hm; exact ⟨by decide, by decide, by decide, by decide⟩
              · exact upperDigit_char_safe (h1 c hm)
          case _ =>
            rcases List.mem_cons.mp hm with hm | hm
            · subst hm; exact ⟨by decide, by decide, by decide, by decide⟩
            rcases List.mem_cons.mp hm with hm | hm
            · subst hm; exact ⟨by decide, by decide, by decide, by decide⟩
            · exact upperDigit_char_safe (h2 c hm)
        case _ =>
          rcases List.mem_cons.mp hm with hm | hm
          · subst hm; exact ⟨by decide, by decide, by decide, by decide⟩
          · exact alnum_char_safe (h3 c hm)
      case _ =>
        rcases List.mem_cons.mp hm with hm | hm
        · subst hm; exact ⟨by decide, by decide, by decide, by decide⟩
        · exact alnum_char_safe (h4 c hm)

/-- An accepted core never contains a newline. -/
theorem core_no_newline (cs : List Char)
    (h : ((servicesGroups cs).isSome || workflowsMatch cs) = true) : '\n' ∉ cs := by
  intro hm
  exact ((core_prefix_and_safe cs h).2 '\n' hm).2.2.2 rfl

theorem data_getLast_newline_decomp (l : List Char) (h : l.getLast? = some '\n') :
    l = l.dropLast ++ ['\n'] := by
  have hne : l ≠ [] := by intro h0; rw [h0] at h; simp at h
  have hg := List.getLast?_eq_getLast l hne
  rw [hg] at h
  have hc : l.getLast hne = '\n' := by injection h
  have hd := List.dropLast_append_getLast hne
  rw [hc] at hd
  exact hd.symm

theorem pyDollarInput_eq_self_of_no_newline (l : List Char) (h : '\n' ∉ l) :
    pyDollarInput l = l := by
  unfold pyDollarInput
  rw [if_neg]
  intro hl
  exact h (by rw [data_getLast_newline_decomp l hl]
              exact List.mem_append_right _ (by simp))

theorem string_mk_append (a b : List Char) :
    String.mk a ++ String.mk b = String.mk (a ++ b) := rfl

/-!
## Claim C6
-/

/-- Claim C6 counterexample: the claim says `is_valid_webhook_url`
accepts exactly the full-string matches of the two patterns, but the
source uses Python `re.match` with `$`, which also matches just before a
single trailing newline: a services URL followed by `"\n"` is accepted
though it is not a full match of either pattern. -/
theorem C6_counterexample :
    is_valid_webhook_url "https://hooks.slack.com/services/T1/B1/x\n" = true ∧
    specServicesMatch "https://hooks.slack.com/services/T1/B1/x\n" = false ∧
    specWorkflowsMatch "https://hooks.slack.com/services/T1/B1/x\n" = false := by
  refine ⟨by decide, by decide, by decide⟩

/-- Claim C6 as amended: `is_valid_webhook_url` returns `true` exactly
for full matches of the services or workflows pattern, or such a full
match followed by one trailing newline (Python `$` semantics).  In
particular every accepted string starts with `https://hooks.slack.com/`
(so non-HTTPS schemes and other domains are rejected) and contains no
`?`, `#` or space (so query strings, fragments and embedded spaces are
rejected); missing segments and lowercase team/bot prefixes fail the
pattern match itself. -/
theorem C6_validator_amended (url : String) :
    (is_valid_webhook_url url = true ↔
      (specServicesMatch url || specWorkflowsMatch url) = true ∨
      ∃ t : String, url = t ++ "\n" ∧
        (specServicesMatch t || specWorkflowsMatch t) = true) ∧
    (is_valid_webhook_url url = true →
      (∃ r, url.data = "https://hooks.slack.com/".data ++ r) ∧
      ∀ c ∈ url.data, ¬ c = '?' ∧ ¬ c = '#' ∧ ¬ c = ' ') := by
  constructor
  · constructor
    · intro hv
      unfold is_valid_webhook_url at hv
      by_cases he : url = ""
      · rw [if_pos he] at hv; exact absurd hv (by decide)
      rw [if_neg he] at hv
      by_cases hl : url.data.getLast? = some '\n'
      · right
        refine ⟨String.mk url.data.dropLast, ?_, ?_⟩
        · cases url with
          | mk l =>
            rw [show ("\n" : String) = String.mk ['\n'] from rfl, string_mk_append]
            exact congrArg String.mk (data_getLast_newline_decomp l hl)
        · have hpy : pyDollarInput url.data = url.data.dropLast := by
            unfold pyDollarInput; rw [if_pos hl]
          rw [hpy] at hv
          simpa [specServicesMatch, specWorkflowsMatch] using hv
      · left
        have hpy : pyDollarInput url.data = url.data := by
          unfold pyDollarInput; rw [if_neg hl]
        rw [hpy] at hv
        simpa [specServicesMatch, specWorkflowsMatch] using hv
    · intro h
      rcases h with h | ⟨t, ht, hm⟩
      · have hm : ((servicesGroups url.data).isSome || workflowsMatch url.data) = true := by
          simpa [specServicesMatch, specWorkflowsMatch] using h
        have hne : url ≠ "" := by
          intro h0
          subst h0
          exact absurd hm (by decide)
        have hnonl := core_no_newline url.data hm
        unfold is_valid_webhook_url
        rw [if_neg hne, pyDollarInput_eq_self_of_no_newline _ hnonl]
        exact hm
      · subst ht
        have hdata : (t ++ "\n").data = t.data ++ ['\n'] := by
          rw [String.data_append]
        have hcoreb : ((servicesGroups t.data).isSome || workflowsMatch t.data) = true := by
          simpa [specServicesMatch, specWorkflowsMatch] using hm
        have hne : (t ++ "\n") ≠ "" := by
          intro h0
          have h1 : (t ++ "\n").data = ([] : List Char) := by rw [h0]
          rw [hdata] at h1
          simp at h1
        unfold is_valid_webhook_url
        rw [if_neg hne]
        unfold pyDollarInput
        rw [hdata, List.getLast?_concat, if_pos rfl, List.dropLast_concat]
        exact hcoreb
  · intro hv
    unfold is_valid_webhook_url at hv
    by_cases he : url = ""
    · rw [if_pos he] at hv; exact absurd hv (by decide)
    rw [if_neg he] at hv
    have hcore := core_prefix_and_safe _ hv
    by_cases hl : url.data.getLast? = some '\n'
    · obtain ⟨l3, hdec, hpy⟩ :
        ∃ l3, url.data = l3 ++ ['\n'] ∧ pyDollarInput url.data = l3 :=
        ⟨url.data.dropLast, data_getLast_newline_decomp url.data hl, by
          unfold pyDollarInput; rw [if_pos hl]⟩
      rw [hpy] at hcore
      constructor
      · obtain ⟨r, hr⟩ := hcore.1
        exact ⟨r ++ ['\n'], by rw [hdec, hr, List.append_assoc]⟩
      · intro c hc
        rw [hdec] at hc
        rcases List.mem_append.mp hc with hmc | hmc
        · have hs := hcore.2 c hmc
          exact ⟨hs.1, hs.2.1, hs.2.2.1⟩
        · have hce : c = '\n' := by simpa using hmc
          subst hce
          exact ⟨by decide, by decide, by decide⟩
    · have hpy : pyDollarInput url.data = url.data := by
        unfold pyDollarInput; rw [if_neg hl]
      rw [hpy] at hcore
      refine ⟨hcore.1, ?_⟩
      intro c hc
      have hs := hcore.2 c hc
      exact ⟨hs.1, hs.2.1, hs.2.2.1⟩

/-- Witness for C6's amended theorem at a concrete services URL. -/
theorem C6_validator_amended_witness :
    is_valid_webhook_url "https://hooks.slack.com/services/T1/B1/x" = true ∧
    (∃ r, ("https://hooks.slack.com/services/T1/B1/x" : String).data =
      "https://hooks.slack.com/".data ++ r) :=
  ⟨by decide,
   ((C6_validator_amended "https://hooks.slack.com/services/T1/B1/x").2 (by decide)).1⟩

/-!
## Registration lemmas (for claim C8)
-/

theorem registerStep_cases (s s' : List (String × Json)) (hf : String)
    (h : registerStep s hf = .ok s') :
    (hookTypeOf hf = none ∧ s' = s) ∨
    ∃ ht hkvs, hookTypeOf hf = some ht ∧ jlookup s "hooks" = some (.obj hkvs) ∧
      ((∃ v, jlookup hkvs ht = some v ∧ pyContainsStr v hf = .ok true ∧ s' = s) ∨
       (∃ xs, jlookup hkvs ht = some (.arr xs) ∧
          xs.any (fun j => Json.beq j (.str hf)) = false ∧
          s' = jset s "hooks" (.obj (jset hkvs ht (.arr (xs ++ [.str hf]))))) ∨
       (jlookup hkvs ht = none ∧
          s' = jset s "hooks" (.obj (jset hkvs ht (.arr [.str hf]))))) := by
  unfold registerStep at h
  split at h
  · rename_i hht
    injection h with h
    exact .inl ⟨hht, h.symm⟩
  case _ ht hht =>
  split at h
  case _ hkvs hhk =>
    split at h
    case _ xs hxs =>
      split at h
      case _ hany =>
        injection h with h
        exact .inr ⟨ht, hkvs, hht, hhk,
          .inl ⟨.arr xs, hxs, by simp [pyContainsStr, hany], h.symm⟩⟩
      case _ hany =>
        injection h with h
        refine .inr ⟨ht, hkvs, hht, hhk, .inr (.inl ⟨xs, hxs, ?_, h.symm⟩)⟩
        simpa using hany
    case _ other hne hother =>
      split at h
      case _ hcont =>
        injection h with h
        exact .inr ⟨ht, hkvs, hht, hhk, .inl ⟨other, hother, hcont, h.symm⟩⟩
      case _ =>
        exact absurd h (by simp)
    case _ hnone =>
      injection h with h
      exact .inr ⟨ht, hkvs, hht, hhk, .inr (.inr ⟨hnone, h.symm⟩)⟩
  case _ =>
    exact absurd h (by simp)
  case _ =>
    exact absurd h (by simp)

theorem registerStep_regDone (s s' : List (String × Json)) (hf : String)
    (h : registerStep s hf = .ok s') : RegDone hf s' := by
  intro ht hht
  rcases registerStep_cases s s' hf h with ⟨hn, _⟩ | ⟨ht', hkvs, hht', hhk, hbr⟩
  · rw [hn] at hht; cases hht
  rw [hht'] at hht
  injection hht with hht
  subst hht
  rcases hbr with ⟨v, hv, hcont, hs⟩ | ⟨xs, hxs, hany, hs⟩ | ⟨hnone, hs⟩
  · subst hs; exact ⟨hkvs, hhk, v, hv, hcont⟩
  · subst hs
    refine ⟨jset hkvs ht' (.arr (xs ++ [.str hf])), jlookup_jset_self _ _ _,
      .arr (xs ++ [.str hf]), jlookup_jset_self _ _ _, ?_⟩
    simp [pyContainsStr, Json.beq]
  · subst hs
    refine ⟨jset hkvs ht' (.arr [.str hf]), jlookup_jset_self _ _ _,
      .arr [.str hf], jlookup_jset_self _ _ _, ?_⟩
    simp [pyContainsStr, Json.beq]

theorem registerStep_preserves_regDone (s s' : List (String × Json)) (hf h2 : String)
    (hreg : RegDone hf s) (h : registerStep s h2 = .ok s') : RegDone hf s' := by
  intro ht hht
  obtain ⟨hkvs, hhk, v, hv, hcont⟩ := hreg ht hht
  rcases registerStep_cases s s' h2 h with ⟨_, hs⟩ | ⟨ht2, hkvs2, _, hhk2, hbr⟩
  · subst hs; exact ⟨hkvs, hhk, v, hv, hcont⟩
  rw [hhk] at hhk2
  injection hhk2 with hk2
  injection hk2 with hk2
  subst hk2
  rcases hbr with ⟨v2, hv2, hcont2, hs⟩ | ⟨xs2, hxs2, hany2, hs⟩ | ⟨hnone, hs⟩
  · subst hs; exact ⟨hkvs, hhk, v, hv, hcont⟩
  · subst hs
    by_cases he : ht = ht2
    · subst he
      rw [hv] at hxs2
      injection hxs2 with hx
      subst hx
      refine ⟨jset hkvs ht (.arr (xs2 ++ [.str h2])), jlookup_jset_self _ _ _,
        .arr (xs2 ++ [.str h2]), jlookup_jset_self _ _ _, ?_⟩
      have hmem : xs2.any (fun j => Json.beq j (.str hf)) = true := by
        simpa [pyContainsStr] using hcont
      simp [pyContainsStr, List.any_append, hmem]
    · exact ⟨jset hkvs ht2 (.arr (xs2 ++ [.str h2])), jlookup_jset_self _ _ _,
        v, by rw [jlookup_jset_ne _ _ he]; exact hv, hcont⟩
  · subst hs
    by_cases he : ht = ht2
    · subst he
      rw [hv] at hnone
      cases hnone
    · exact ⟨jset hkvs ht2 (.arr [.str h2]), jlookup_jset_self _ _ _,
        v, by rw [jlookup_jset_ne _ _ he]; exact hv, hcont⟩

theorem registerStep_fix (s : List (String × Json)) (hf : String)
    (hreg : RegDone hf s) : registerStep s hf = .ok s := by
  cases hht : hookTypeOf hf with
  | none => unfold registerStep; rw [hht]
  | some ht =>
    obtain ⟨hkvs, hhk, v, hv, hcont⟩ := hreg ht hht
    unfold registerStep
    rw [hht]
    simp only [hhk]
    cases v with
    | arr xs =>
      simp only [hv]
      have hmem : xs.any (fun j => Json.beq j (.str hf)) = true := by
        simpa [pyContainsStr] using hcont
      simp [hmem]
    | null => simp only [hv]; rw [hcont]
    | bool b => simp only [hv]; rw [hcont]
    | num n => simp only [hv]; rw [hcont]
    | str t => simp only [hv]; rw [hcont]
    | obj kvs => simp only [hv]; rw [hcont]

theorem registerStep_hooks_isSome (s s' : List (String × Json)) (hf : String)
    (h : registerStep s hf = .ok s')
    (hs : (jlookup s "hooks").isSome = true) : (jlookup s' "hooks").isSome = true := by
  rcases registerStep_cases s s' hf h with ⟨_, hs'⟩ | ⟨ht, hkvs, _, _, hbr⟩
  · rw [hs']; exact hs
  rcases hbr with ⟨_, _, _, hs'⟩ | ⟨_, _, _, hs'⟩ | ⟨_, hs'⟩ <;>
    rw [hs'] <;> first
      | exact hs
      | simp [jlookup_jset_self]

theorem foldlM_register_props : ∀ (l : List String) (s s1 : List (String × Json)),
    List.foldlM registerStep s l = .ok s1 →
    (∀ hf ∈ l, RegDone hf s1) ∧ (∀ hf, RegDone hf s → RegDone hf s1) ∧
    ((jlookup s "hooks").isSome = true → (jlookup s1 "hooks").isSome = true) := by
  intro l
  induction l with
  | nil =>
    intro s s1 h
    have h' : (Except.ok s : Except Unit _) = .ok s1 := h
    injection h' with h'
    subst h'
    exact ⟨by simp, fun _ hd => hd, fun hs => hs⟩
  | cons a t ih =>
    intro s s1 h
    rw [List.foldlM_cons] at h
    cases hstep : registerStep s a with
    | error e =>
      rw [hstep] at h
      have h' : (Except.error e : Except Unit _) = .ok s1 := h
      exact Except.noConfusion h'
    | ok s' =>
      rw [hstep] at h
      have h' : List.foldlM registerStep s' t = .ok s1 := h
      obtain ⟨h1, h2, h3⟩ := ih s' s1 h'
      refine ⟨?_, ?_, ?_⟩
      · intro hf hmem
        rcases List.mem_cons.mp hmem with he | hm
        · subst he; exact h2 hf (registerStep_regDone s s' hf hstep)
        · exact h1 hf hm
      · intro hf hd
        exact h2 hf (registerStep_preserves_regDone s s' hf a hd hstep)
      · intro hsome
        exact h3 (registerStep_hooks_isSome s s' a hstep hsome)

theorem foldlM_register_fix : ∀ (l : List String) (s : List (String × Json)),
    (∀ hf ∈ l, RegDone hf s) → List.foldlM registerStep s l = .ok s := by
  intro l
  induction l with
  | nil => intro s _; rfl
  | cons a t ih =>
    intro s hall
    rw [List.foldlM_cons, registerStep_fix s a (hall a (by simp))]
    have h' : List.foldlM registerStep s t = .ok s :=
      ih s (fun hf hm => hall hf (by simp [hm]))
    exact h'

theorem register_idempotent (l : List String) (s s1 : List (String × Json))
    (h : register_hook_in_settings l s = .ok s1) :
    register_hook_in_settings l s1 = .ok s1 := by
  have h' : List.foldlM registerStep
      (if (jlookup s "hooks").isSome = true then s else jset s "hooks" (.obj [])) l
      = .ok s1 := h
  obtain ⟨h1, _, h3⟩ := foldlM_register_props l _ s1 h'
  have hsome1 : (jlookup s1 "hooks").isSome = true := by
    apply h3
    split
    · assumption
    · simp [jlookup_jset_self]
  show List.foldlM registerStep
    (if (jlookup s1 "hooks").isSome = true then s1 else jset s1 "hooks" (.obj [])) l
    = .ok s1
  rw [if_pos hsome1]
  exact foldlM_register_fix l s1 h1

theorem slackEntryCount_append (xs ys : List Json) (f : String) :
    slackEntryCount (xs ++ ys) f = slackEntryCount xs f + slackEntryCount ys f := by
  simp [slackEntryCount, List.filter_append]

theorem slackEntryCount_zero_of_any_false (xs : List Json) (f : String)
    (h : xs.any (fun j => Json.beq j (.str f)) = false) : slackEntryCount xs f = 0 := by
  rw [List.any_eq_false] at h
  unfold slackEntryCount
  rw [List.filter_eq_nil_iff.mpr h]
  rfl

theorem slackEntryCount_singleton_le (j : Json) (f : String) :
    slackEntryCount [j] f ≤ 1 :=
  List.length_filter_le _ _

theorem registerStep_nodup (s s' : List (String × Json)) (hf : String)
    (hnd : NoDupSlack s) (h : registerStep s hf = .ok s') : NoDupSlack s' := by
  rcases registerStep_cases s s' hf h with ⟨_, hs⟩ | ⟨ht, hkvs, _, hhk, hbr⟩
  · rw [hs]; exact hnd
  rcases hbr with ⟨_, _, _, hs⟩ | ⟨xs, hxs, hany, hs⟩ | ⟨hnone, hs⟩
  · rw [hs]; exact hnd
  · subst hs
    intro ht0 hkvs0 xs0 f hhk0 hth0 hfm
    rw [jlookup_jset_self] at hhk0
    injection hhk0 with h9
    injection h9 with h9
    subst h9
    by_cases he : ht0 = ht
    · subst he
      rw [jlookup_jset_self] at hth0
      injection hth0 with h9
      injection h9 with h9
      subst h9
      rw [slackEntryCount_append]
      by_cases hff : f = hf
      · subst hff
        rw [slackEntryCount_zero_of_any_false xs f hany]
        have := slackEntryCount_singleton_le (Json.str f) f
        omega
      · have h1 : slackEntryCount [Json.str hf] f = 0 := by
          apply slackEntryCount_zero_of_any_false
          simp [Json.beq]
          exact fun hc => hff hc.symm
        have h2 : slackEntryCount xs f ≤ 1 := hnd ht0 hkvs xs f hhk hxs hfm
        omega
    · rw [jlookup_jset_ne _ _ he] at hth0
      exact hnd ht0 hkvs xs0 f hhk hth0 hfm
  · subst hs
    intro ht0 hkvs0 xs0 f hhk0 hth0 hfm
    rw [jlookup_jset_self] at hhk0
    injection hhk0 with h9
    injection h9 with h9
    subst h9
    by_cases he : ht0 = ht
    · subst he
      rw [jlookup_jset_self] at hth0
      injection hth0 with h9
      injection h9 with h9
      subst h9
      exact slackEntryCount_singleton_le _ _
    · rw [jlookup_jset_ne _ _ he] at hth0
      exact hnd ht0 hkvs xs0 f hhk hth0 hfm

theorem foldlM_register_nodup : ∀ (l : List String) (s s1 : List (String × Json)),
    NoDupSlack s → List.foldlM registerStep s l = .ok s1 → NoDupSlack s1 := by
  intro l
  induction l with
  | nil =>
    intro s s1 hnd h
    have h' : (Except.ok s : Except Unit _) = .ok s1 := h
    injection h' with h'
    subst h'
    exact hnd
  | cons a t ih =>
    intro s s1 hnd h
    rw [List.foldlM_cons] at h
    cases hstep : registerStep s a with
    | error e =>
      rw [hstep] at h
      have h' : (Except.error e : Except Unit _) = .ok s1 := h
      exact Except.noConfusion h'
    | ok s' =>
      rw [hstep] at h
      have h' : List.foldlM registerStep s' t = .ok s1 := h
      exact ih s' s1 (registerStep_nodup s s' a hnd hstep) h'

theorem register_nodup (l : List String) (s s1 : List (String × Json))
    (hnd : NoDupSlack s) (h : register_hook_in_settings l s = .ok s1) :
    NoDupSlack s1 := by
  have h' : List.foldlM registerStep
      (if (jlookup s "hooks").isSome = true then s else jset s "hooks" (.obj [])) l
      = .ok s1 := h
  refine foldlM_register_nodup l _ s1 ?_ h'
  split
  · exact hnd
  · intro ht0 hkvs0 xs0 f hhk0 hth0 _
    rw [jlookup_jset_self] at hhk0
    injection hhk0 with h9
    injection h9 with h9
    subst h9
    cases hth0
  
theorem registerSeq_nodup : ∀ (calls : List (List String)) (s s2 : List (String × Json)),
    NoDupSlack s → registerSeq calls s = .ok s2 → NoDupSlack s2 := by
  intro calls
  induction calls with
  | nil =>
    intro s s2 hnd h
    have h' : (Except.ok s : Except Unit _) = .ok s2 := h
    injection h' with h'
    subst h'
    exact hnd
  | cons c t ih =>
    intro s s2 hnd h
    have h' : List.foldlM (fun s l => register_hook_in_settings l s) s (c :: t)
        = .ok s2 := h
    rw [List.foldlM_cons] at h'
    cases hstep : register_hook_in_settings c s with
    | error e =>
      rw [hstep] at h'
      have h'' : (Except.error e : Except Unit _) = .ok s2 := h'
      exact Except.noConfusion h''
    | ok s' =>
      rw [hstep] at h'
      have h'' : List.foldlM (fun s l => register_hook_in_settings l s) s' t
          = .ok s2 := h'
      exact ih s' s2 (register_nodup c s s' hnd hstep) h''

/-!
## Claim C8
-/

/-- Claim C8: `register_hook_in_settings` is idempotent — whenever a call
from settings content `s` succeeds with content `s1`, a second call with
the same hook list returns exactly `s1` again — and the no-duplicate
invariant holds: any sequence of register calls started from a state
where no hook-type list holds more than one entry per `*-slack.py`
script name (in particular the fresh empty state) ends in such a state.
Registration appends a managed filename only after the Python membership
test `hook_file not in settings["hooks"][hook_type]` fails, which is
what both properties rest on. -/
theorem C8_register_idempotent_nodup (l : List String) (s : List (String × Json)) :
    (∀ s1, register_hook_in_settings l s = .ok s1 →
        register_hook_in_settings l s1 = .ok s1) ∧
    (NoDupSlack s → ∀ calls s2, registerSeq calls s = .ok s2 → NoDupSlack s2) := by
  constructor
  · intro s1 h
    exact register_idempotent l s s1 h
  · intro hnd calls s2 h
    exact registerSeq_nodup calls s s2 hnd h

/-- Witness for C8 at the fresh empty settings state and the stop hook:
the first call registers the hook, the second call is the identity, and
the resulting state satisfies the no-duplicate invariant. -/
theorem C8_register_idempotent_nodup_witness :
    register_hook_in_settings ["stop-slack.py"]
        [("hooks", Json.obj [("stop", Json.arr [Json.str "stop-slack.py"])])] =
      .ok [("hooks", Json.obj [("stop", Json.arr [Json.str "stop-slack.py"])])] ∧
    NoDupSlack [("hooks", Json.obj [("stop", Json.arr [Json.str "stop-slack.py"])])] := by
  constructor
  · exact (C8_register_idempotent_nodup ["stop-slack.py"] []).1 _ rfl
  · exact (C8_register_idempotent_nodup ["stop-slack.py"] []).2
      (by intro ht hkvs xs f hhk; exact Option.noConfusion hhk)
      [["stop-slack.py"]] _ rfl

/-!
## JSON round-trip lemmas (for claim C5)
-/

theorem jsize_pos (v : Json) : 1 ≤ jsize v := by
  cases v <;> simp [jsize] <;> omega

theorem dropLit_lit : ∀ (lit rest : List Char), dropLit lit (lit ++ rest) = some rest := by
  intro lit
  induction lit with
  | nil => intro rest; rfl
  | cons c t ih => intro rest; simp [dropLit, ih]

theorem skipWs_ws_cons {c : Char} (X : List Char) (h : isJWs c = true) :
    skipWs (c :: X) = skipWs X := by
  simp [skipWs, List.dropWhile_cons, h]

theorem skipWs_not_ws_cons {c : Char} (X : List Char) (h : isJWs c = false) :
    skipWs (c :: X) = c :: X := by
  simp [skipWs, List.dropWhile_cons, h]

theorem skipWs_replicate (n : Nat) (X : List Char) :
    skipWs (List.replicate n ' ' ++ X) = skipWs X := by
  induction n with
  | zero => rfl
  | succ m ih =>
      rw [List.replicate_succ, List.cons_append, skipWs_ws_cons _ (by decide), ih]

theorem skipWs_ind (l : Nat) (X : List Char) : skipWs (ind l ++ X) = skipWs X :=
  skipWs_replicate _ _

theorem digit_not_jws {c : Char} (h : c.isDigit = true) : isJWs c = false := by
  cases hj : isJWs c
  · rfl
  · exfalso
    simp only [isJWs, Bool.or_eq_true, decide_eq_true_eq] at hj
    rcases hj with ((h1 | h1) | h1) | h1 <;> (subst h1; exact absurd h (by decide))

theorem digit_not_pws {c : Char} (h : c.isDigit = true) : pyIsWs c = false := by
  cases hj : pyIsWs c
  · rfl
  · exfalso
    simp only [pyIsWs, Bool.or_eq_true, decide_eq_true_eq] at hj
    rcases hj with ((((h1 | h1) | h1) | h1) | h1) | h1 <;>
      (subst h1; exact absurd h (by decide))

theorem digit_not_special {c : Char} (h : c.isDigit = true) :
    ¬ c = 'n' ∧ ¬ c = 't' ∧ ¬ c = 'f' ∧ ¬ c = '"' ∧ ¬ c = '[' ∧ ¬ c = '\x7b' ∧
      ¬ c = ']' ∧ ¬ c = '\x7d' := by
  refine ⟨?_, ?_, ?_, ?_, ?_, ?_, ?_, ?_⟩ <;> (intro he; subst he; exact absurd h (by decide))

theorem serInt_head (i : Int) : ∃ c t, serInt i = c :: t ∧ (c.isDigit = true ∨ c = '-') := by
  unfold serInt
  split
  · exact ⟨'-', serNat i.natAbs, rfl, .inr rfl⟩
  · cases hh : serNat i.toNat with
    | nil => exact absurd hh (serNat_ne_nil _)
    | cons c t =>
        exact ⟨c, t, rfl, .inl (serNat_digits _ c (by rw [hh]; exact List.mem_cons_self _ _))⟩

theorem serJson_head_spec (lvl : Nat) (v : Json) :
    ∃ c cs, serJson lvl v = c :: cs ∧ isJWs c = false ∧ pyIsWs c = false ∧
      ¬ c = ']' ∧ ¬ c = '\x7d' := by
  cases v with
  | null => exact ⟨'n', ['u', 'l', 'l'], rfl, rfl, rfl, by decide, by decide⟩
  | bool b =>
      cases b
      · exact ⟨'f', ['a', 'l', 's', 'e'], rfl, rfl, rfl, by decide, by decide⟩
      · exact ⟨'t', ['r', 'u', 'e'], rfl, rfl, rfl, by decide, by decide⟩
  | num i =>
      obtain ⟨c, t, hct, hcd⟩ := serInt_head i
      refine ⟨c, t, by rw [show serJson lvl (Json.num i) = serInt i from rfl, hct], ?_⟩
      rcases hcd with hd | hm
      · exact ⟨digit_not_jws hd, digit_not_pws hd, (digit_not_special hd).2.2.2.2.2.2.1,
          (digit_not_special hd).2.2.2.2.2.2.2⟩
      · subst hm; exact ⟨rfl, rfl, by decide, by decide⟩
  | str s =>
      exact ⟨'"', s.data.flatMap escChar ++ ['"'], rfl, rfl, rfl, by decide, by decide⟩
  | arr xs =>
      cases xs with
      | nil => exact ⟨'[', [']'], rfl, rfl, rfl, by decide, by decide⟩
      | cons x t => exact ⟨'[', _, rfl, rfl, rfl, by decide, by decide⟩
  | obj kvs =>
      cases kvs with
      | nil => exact ⟨'\x7b', ['\x7d'], rfl, rfl, rfl, by decide, by decide⟩
      | cons kv t =>
          obtain ⟨k, v⟩ := kv
          exact ⟨'\x7b', _, rfl, rfl, rfl, by decide, by decide⟩

theorem skipWs_serJson (lvl : Nat) (v : Json) (X : List Char) :
    skipWs (serJson lvl v ++ X) = serJson lvl v ++ X := by
  obtain ⟨c, cs, hser, hnws, _, _, _⟩ := serJson_head_spec lvl v
  rw [hser, List.cons_append, skipWs_not_ws_cons _ hnws]

theorem parseHexDig_hexDig (n : Nat) (h : n < 16) : parseHexDig (hexDig n) = some n := by
  interval_cases n <;> rfl

theorem parseStrBody_escChar (c : Char) (X : List Char) :
    parseStrBody (escChar c ++ X) = (parseStrBody X).map (fun r => (c :: r.1, r.2)) := by
  unfold escChar
  by_cases h1 : c = '"'
  · subst h1; rw [if_pos rfl]; rfl
  rw [if_neg h1]
  by_cases h2 : c = '\\'
  · subst h2; rw [if_pos rfl]; rfl
  rw [if_neg h2]
  by_cases h3 : c = '\n'
  · subst h3; rw [if_pos rfl]; rfl
  rw [if_neg h3]
  by_cases h4 : c = '\t'
  · subst h4; rw [if_pos rfl]; rfl
  rw [if_neg h4]
  by_cases h5 : c = '\r'
  · subst h5; rw [if_pos rfl]; rfl
  rw [if_neg h5]
  by_cases h6 : c = '\x08'
  · subst h6; rw [if_pos rfl]; rfl
  rw [if_neg h6]
  by_cases h7 : c = '\x0c'
  · subst h7; rw [if_pos rfl]; rfl
  rw [if_neg h7]
  by_cases h8 : c.toNat < 0x20
  · rw [if_pos h8]
    have h16a : c.toNat / 16 < 16 := by omega
    have h16b : c.toNat % 16 < 16 := by omega
    show (match parseHexDig '0', parseHexDig '0', parseHexDig (hexDig (c.toNat / 16)),
        parseHexDig (hexDig (c.toNat % 16)) with
      | some a, some b, some cc, some d =>
          (parseStrBody X).map (fun r =>
            (Char.ofNat (((a * 16 + b) * 16 + cc) * 16 + d) :: r.1, r.2))
      | _, _, _, _ => none) =
      (parseStrBody X).map (fun r => (c :: r.1, r.2))
    rw [show parseHexDig '0' = some 0 from rfl,
      parseHexDig_hexDig _ h16a, parseHexDig_hexDig _ h16b]
    show (parseStrBody X).map (fun r =>
        (Char.ofNat (((0 * 16 + 0) * 16 + c.toNat / 16) * 16 + c.toNat % 16) :: r.1, r.2)) =
      (parseStrBody X).map (fun r => (c :: r.1, r.2))
    rw [show ((0 * 16 + 0) * 16 + c.toNat / 16) * 16 + c.toNat % 16 = c.toNat from by omega,
      Char.ofNat_toNat]
  · rw [if_neg h8]
    show parseStrBody (c :: X) = (parseStrBody X).map (fun r => (c :: r.1, r.2))
    rw [parseStrBody.eq_def]
    split
    · rename_i heq; cases heq
    · rename_i rest heq
      injection heq with heqc heqr
      exact absurd heqc h1
    · rename_i a b cc d rest heq
      injection heq with heqc heqr
      exact absurd heqc h2
    · rename_i e rest heq
      injection heq with heqc heqr
      exact absurd heqc h2
    · rename_i heq
      injection heq with heqc heqr
      subst heqc
      subst heqr
      rfl

theorem parseStrBody_escape : ∀ (s X : List Char),
    parseStrBody (s.flatMap escChar ++ ('"' :: X)) = some (s, X) := by
  intro s
  induction s with
  | nil => intro X; rfl
  | cons c t ih =>
      intro X
      rw [List.flatMap_cons, List.append_assoc, parseStrBody_escChar, ih]
      rfl

theorem serNat_last_digit (n : Nat) :
    ∃ c, (serNat n).getLast? = some c ∧ c.isDigit = true := by
  have hne := serNat_ne_nil n
  exact ⟨(serNat n).getLast hne, List.getLast?_eq_getLast _ hne,
    serNat_digits n _ (List.getLast_mem hne)⟩

theorem serJson_last_spec (lvl : Nat) (v : Json) :
    ∃ c, (serJson lvl v).getLast? = some c ∧ pyIsWs c = false := by
  cases v with
  | null =>
      refine ⟨'l', ?_, by decide⟩
      show ("null".data : List Char).getLast? = some 'l'
      decide
  | bool b =>
      cases b
      · refine ⟨'e', ?_, by decide⟩
        show ("false".data : List Char).getLast? = some 'e'
        decide
      · refine ⟨'e', ?_, by decide⟩
        show ("true".data : List Char).getLast? = some 'e'
        decide
  | num i =>
      show ∃ c, (serInt i).getLast? = some c ∧ pyIsWs c = false
      obtain ⟨c, hc, hd⟩ := serNat_last_digit i.natAbs
      obtain ⟨c', hc', hd'⟩ := serNat_last_digit i.toNat
      unfold serInt
      split
      · refine ⟨c, ?_, digit_not_pws hd⟩
        rw [show ('-' :: serNat i.natAbs) = ['-'] ++ serNat i.natAbs from rfl,
          List.getLast?_append_of_ne_nil _ (serNat_ne_nil _)]
        exact hc
      · exact ⟨c', hc', digit_not_pws hd'⟩
  | str s =>
      exact ⟨'"', by rw [show serJson lvl (Json.str s) =
        ('"' :: s.data.flatMap escChar) ++ ['"'] from rfl, List.getLast?_concat], by decide⟩
  | arr xs =>
      cases xs with
      | nil =>
          refine ⟨']', ?_, by decide⟩
          show ("[]".data : List Char).getLast? = some ']'
          decide
      | cons x t =>
          refine ⟨']', ?_, by decide⟩
          show (('[' :: '\n' :: ind (lvl + 1) ++ serJson (lvl + 1) x ++
            serItems (lvl + 1) t ++ '\n' :: ind lvl ++ [']']).getLast?) = some ']'
          rw [List.getLast?_concat]
  | obj kvs =>
      cases kvs with
      | nil =>
          refine ⟨'\x7d', ?_, by decide⟩
          show (['\x7b', '\x7d'] : List Char).getLast? = some '\x7d'
          decide
      | cons kv t =>
          obtain ⟨k, v⟩ := kv
          refine ⟨'\x7d', ?_, by decide⟩
          show (('\x7b' :: '\n' :: ind (lvl + 1) ++ escString k ++ ':' :: ' ' ::
            serJson (lvl + 1) v ++ serFields (lvl + 1) t ++
            '\n' :: ind lvl ++ ['\x7d']).getLast?) = some '\x7d'
          rw [List.getLast?_concat]

theorem serItems_tail_head_not_digit (lvl l2 : Nat) (xs : List Json) (rest : List Char) :
    ∀ c, (serItems lvl xs ++ ('\n' :: (ind l2 ++ (']' :: rest)))).head? = some c →
      c.isDigit = false := by
  intro c hc
  cases xs with
  | nil =>
      have hc' : some '\n' = some c := hc
      injection hc' with hc'
      subst hc'
      rfl
  | cons y ys =>
      have hc' : some ',' = some c := hc
      injection hc' with hc'
      subst hc'
      rfl

theorem serFields_tail_head_not_digit (lvl l2 : Nat) (kvs : List (String × Json))
    (rest : List Char) :
    ∀ c, (serFields lvl kvs ++ ('\n' :: (ind l2 ++ ('\x7d' :: rest)))).head? = some c →
      c.isDigit = false := by
  intro c hc
  cases kvs with
  | nil =>
      have hc' : some '\n' = some c := hc
      injection hc' with hc'
      subst hc'
      rfl
  | cons kv t =>
      obtain ⟨k, v⟩ := kv
      have hc' : some ',' = some c := hc
      injection hc' with hc'
      subst hc'
      rfl

theorem skipWs_escString (k : String) (X : List Char) :
    skipWs (escString k ++ X) = escString k ++ X := by
  show skipWs ('"' :: (k.data.flatMap escChar ++ ['"'] ++ X)) =
    '"' :: (k.data.flatMap escChar ++ ['"'] ++ X)
  rw [skipWs_not_ws_cons _ (by decide)]

theorem parse_ser : ∀ fuel : Nat,
    (∀ v lvl rest, jsize v ≤ fuel →
      (∀ c, rest.head? = some c → c.isDigit = false) →
      parseValue fuel (serJson lvl v ++ rest) = some (v, rest)) ∧
    (∀ x xs lvl l2 acc rest, 1 + jsize x + jsizeItems xs ≤ fuel →
      parseItems fuel
        (serJson lvl x ++ (serItems lvl xs ++ ('\n' :: (ind l2 ++ (']' :: rest))))) acc =
        some (Json.arr (acc ++ x :: xs), rest)) ∧
    (∀ k v kvs lvl l2 acc rest, 1 + jsize v + jsizeFields kvs ≤ fuel →
      parseFields fuel
        (escString k ++ (':' :: ' ' :: (serJson lvl v ++ (serFields lvl kvs ++
          ('\n' :: (ind l2 ++ ('\x7d' :: rest))))))) acc =
        some (Json.obj (acc ++ (k, v) :: kvs), rest)) := by
  intro fuel
  induction fuel with
  | zero =>
      refine ⟨?_, ?_, ?_⟩
      · intro v lvl rest hsz _
        exact absurd hsz (by have := jsize_pos v; omega)
      · intro x xs lvl l2 acc rest hsz
        exact absurd hsz (by have := jsize_pos x; omega)
      · intro k v kvs lvl l2 acc rest hsz
        exact absurd hsz (by have := jsize_pos v; omega)
  | succ fuel ih =>
      obtain ⟨ihv, ihi, ihf⟩ := ih
      refine ⟨?_, ?_, ?_⟩
      · intro v lvl rest hsz hdf
        cases v with
        | null => rfl
        | bool b => cases b <;> rfl
        | num i =>
            obtain ⟨c, t, hct, hcd⟩ := serInt_head i
            have hser : serJson lvl (Json.num i) ++ rest = c :: (t ++ rest) := by
              show serInt i ++ rest = c :: (t ++ rest)
              rw [hct]
              rfl
            rw [hser]
            have hfacts : ¬ c = 'n' ∧ ¬ c = 't' ∧ ¬ c = 'f' ∧ ¬ c = '"' ∧
                ¬ c = '[' ∧ ¬ c = '\x7b' := by
              rcases hcd with hd | hm
              · obtain ⟨a1, a2, a3, a4, a5, a6, _, _⟩ := digit_not_special hd
                exact ⟨a1, a2, a3, a4, a5, a6⟩
              · subst hm
                exact ⟨by decide, by decide, by decide, by decide, by decide, by decide⟩
            obtain ⟨hc1, hc2, hc3, hc4, hc5, hc6⟩ := hfacts
            simp only [parseValue]
            rw [if_neg hc1, if_neg hc2, if_neg hc3, if_neg hc4, if_neg hc5, if_neg hc6]
            have hser2 : serInt i ++ rest = c :: (t ++ rest) := by rw [hct]; rfl
            rw [← hser2, parseNum_serInt i rest hdf]
            rfl
        | str s =>
            have hshape : serJson lvl (Json.str s) ++ rest =
                '"' :: (s.data.flatMap escChar ++ ('"' :: rest)) := by
              show (('"' :: s.data.flatMap escChar) ++ ['"']) ++ rest = _
              rw [List.cons_append, List.cons_append, List.append_assoc,
                List.singleton_append]
            rw [hshape]
            simp only [parseValue]
            rw [if_pos trivial, parseStrBody_escape]
            rfl
        | arr xs =>
            cases xs with
            | nil => rfl
            | cons x t =>
                have hshape : serJson lvl (Json.arr (x :: t)) ++ rest =
                    '[' :: '\n' :: (ind (lvl + 1) ++ (serJson (lvl + 1) x ++
                      (serItems (lvl + 1) t ++ ('\n' :: (ind lvl ++ (']' :: rest)))))) := by
                  show ((('[' :: '\n' :: ind (lvl + 1)) ++ serJson (lvl + 1) x ++
                    serItems (lvl + 1) t ++ ('\n' :: ind lvl) ++ [']']) ++ rest) = _
                  simp [List.append_assoc]
                rw [hshape]
                simp only [parseValue]
                rw [if_neg (show ¬('[' = 'n') from by decide),
                  if_neg (show ¬('[' = 't') from by decide),
                  if_neg (show ¬('[' = 'f') from by decide),
                  if_neg (show ¬('[' = '"') from by decide), if_pos trivial]
                rw [skipWs_ws_cons _ (by decide), skipWs_ind, skipWs_serJson]
                obtain ⟨c, cs, hserx, _, _, hnrb, _⟩ := serJson_head_spec (lvl + 1) x
                rw [hserx, List.cons_append]
                split
                · rename_i r heq
                  injection heq with h1 _
                  exact absurd h1 hnrb
                · rw [← List.cons_append, ← hserx]
                  have harith : 1 + jsize x + jsizeItems t ≤ fuel := by
                    simp only [jsize, jsizeItems] at hsz
                    omega
                  exact ihi x t (lvl + 1) lvl [] rest harith
        | obj kvs =>
            cases kvs with
            | nil => rfl
            | cons kv t =>
                obtain ⟨k, v⟩ := kv
                have hshape : serJson lvl (Json.obj ((k, v) :: t)) ++ rest =
                    '\x7b' :: '\n' :: (ind (lvl + 1) ++ (escString k ++
                      (':' :: ' ' :: (serJson (lvl + 1) v ++ (serFields (lvl + 1) t ++
                        ('\n' :: (ind lvl ++ ('\x7d' :: rest)))))))) := by
                  show ((('\x7b' :: '\n' :: ind (lvl + 1)) ++ escString k ++
                    (':' :: ' ' :: serJson (lvl + 1) v) ++ serFields (lvl + 1) t ++
                    ('\n' :: ind lvl) ++ ['\x7d']) ++ rest) = _
                  simp [List.append_assoc]
                rw [hshape]
                simp only [parseValue]
                rw [if_neg (show ¬('\x7b' = 'n') from by decide),
                  if_neg (show ¬('\x7b' = 't') from by decide),
                  if_neg (show ¬('\x7b' = 'f') from by decide),
                  if_neg (show ¬('\x7b' = '"') from by decide),
                  if_neg (show ¬('\x7b' = '[') from by decide), if_pos trivial]
                rw [skipWs_ws_cons _ (by decide), skipWs_ind]
                have hesc : escString k ++ (':' :: ' ' :: (serJson (lvl + 1) v ++
                    (serFields (lvl + 1) t ++ ('\n' :: (ind lvl ++ ('\x7d' :: rest)))))) =
                    '"' :: (k.data.flatMap escChar ++ ('"' :: (':' :: ' ' ::
                      (serJson (lvl + 1) v ++ (serFields (lvl + 1) t ++
                        ('\n' :: (ind lvl ++ ('\x7d' :: rest)))))))) := by
                  show (('"' :: k.data.flatMap escChar) ++ ['"']) ++ _ = _
                  rw [List.cons_append, List.cons_append, List.append_assoc,
                    List.singleton_append]
                rw [hesc, skipWs_not_ws_cons _ (by decide)]
                split
                · rename_i r heq
                  cases heq
                · rw [← hesc]
                  have harith : 1 + jsize v + jsizeFields t ≤ fuel := by
                    simp only [jsize, jsizeFields] at hsz
                    omega
                  exact ihf k v t (lvl + 1) lvl [] rest harith
      · intro x xs lvl l2 acc rest hsz
        simp only [parseItems]
        rw [ihv x lvl _ (by omega) (serItems_tail_head_not_digit lvl l2 xs rest)]
        split
        · rename_i heq
          cases heq
        · rename_i heq
          injection heq with heq
          injection heq with heq1 heq2
          subst heq1
          subst heq2
          cases xs with
          | nil =>
              rw [show serItems lvl [] ++ ('\n' :: (ind l2 ++ (']' :: rest))) =
                  '\n' :: (ind l2 ++ (']' :: rest)) from rfl,
                skipWs_ws_cons _ (by decide), skipWs_ind,
                skipWs_not_ws_cons _ (by decide)]
              split
              · rename_i r heq2
                injection heq2 with heqc _
                exact absurd heqc (by decide)
              · rename_i r heq2
                injection heq2 with _ heqr
                subst heqr
                rfl
              · rename_i hm1 hm2
                exact absurd rfl (hm2 rest)
          | cons y ys =>
              have hT : serItems lvl (y :: ys) ++ ('\n' :: (ind l2 ++ (']' :: rest))) =
                  ',' :: '\n' :: (ind lvl ++ (serJson lvl y ++ (serItems lvl ys ++
                    ('\n' :: (ind l2 ++ (']' :: rest)))))) := by
                show (((',' :: '\n' :: ind lvl) ++ serJson lvl y ++ serItems lvl ys) ++
                  ('\n' :: (ind l2 ++ (']' :: rest)))) = _
                simp [List.append_assoc]
              rw [hT, skipWs_not_ws_cons _ (by decide)]
              split
              · rename_i r heq2
                injection heq2 with _ heqr
                subst heqr
                rw [skipWs_ws_cons _ (by decide), skipWs_ind, skipWs_serJson]
                have harith : 1 + jsize y + jsizeItems ys ≤ fuel := by
                  simp only [jsizeItems] at hsz
                  have := jsize_pos x
                  omega
                rw [ihi y ys lvl l2 (acc ++ [x]) rest harith]
                simp [List.append_assoc]
              · rename_i r heq2
                injection heq2 with heqc _
                exact absurd heqc (by decide)
              · rename_i hm1 hm2
                exact absurd rfl (hm1 _)
      · intro k v kvs lvl l2 acc rest hsz
        have hesc : escString k ++ (':' :: ' ' :: (serJson lvl v ++ (serFields lvl kvs ++
            ('\n' :: (ind l2 ++ ('\x7d' :: rest)))))) =
            '"' :: (k.data.flatMap escChar ++ ('"' :: (':' :: ' ' ::
              (serJson lvl v ++ (serFields lvl kvs ++
                ('\n' :: (ind l2 ++ ('\x7d' :: rest)))))))) := by
          show (('"' :: k.data.flatMap escChar) ++ ['"']) ++ _ = _
          rw [List.cons_append, List.cons_append, List.append_assoc,
            List.singleton_append]
        rw [hesc]
        simp only [parseFields]
        rw [parseStrBody_escape]
        split
        · rename_i heq2
          cases heq2
        · rename_i heq2
          injection heq2 with heq2
          injection heq2 with heqk heqr
          subst heqk
          subst heqr
          rw [skipWs_not_ws_cons _ (by decide)]
          split
          · rename_i heq3
            injection heq3 with _ heqr
            subst heqr
            rw [skipWs_ws_cons _ (by decide), skipWs_serJson]
            rw [ihv v lvl _ (by omega) (serFields_tail_head_not_digit lvl l2 kvs rest)]
            split
            · rename_i heq4
              cases heq4
            · rename_i heq4
              injection heq4 with heq4
              injection heq4 with heq41 heq42
              subst heq41
              subst heq42
              cases kvs with
              | nil =>
                  rw [show serFields lvl [] ++ ('\n' :: (ind l2 ++ ('\x7d' :: rest))) =
                      '\n' :: (ind l2 ++ ('\x7d' :: rest)) from rfl,
                    skipWs_ws_cons _ (by decide), skipWs_ind,
                    skipWs_not_ws_cons _ (by decide)]
                  split
                  · rename_i r heq5
                    injection heq5 with heqc _
                    exact absurd heqc (by decide)
                  · rename_i r heq5
                    injection heq5 with _ heqr
                    subst heqr
                    rfl
                  · rename_i hm1 hm2
                    exact absurd rfl (hm2 rest)
              | cons kv2 t =>
                  obtain ⟨k2, v2⟩ := kv2
                  have hT : serFields lvl ((k2, v2) :: t) ++
                      ('\n' :: (ind l2 ++ ('\x7d' :: rest))) =
                      ',' :: '\n' :: (ind lvl ++ (escString k2 ++ (':' :: ' ' ::
                        (serJson lvl v2 ++ (serFields lvl t ++
                          ('\n' :: (ind l2 ++ ('\x7d' :: rest)))))))) := by
                    show (((',' :: '\n' :: ind lvl) ++ escString k2 ++
                      (':' :: ' ' :: serJson lvl v2) ++ serFields lvl t) ++
                      ('\n' :: (ind l2 ++ ('\x7d' :: rest)))) = _
                    simp [List.append_assoc]
                  rw [hT, skipWs_not_ws_cons _ (by decide)]
                  split
                  · rename_i r heq5
                    injection heq5 with _ heqr
                    subst heqr
                    rw [skipWs_ws_cons _ (by decide), skipWs_ind, skipWs_escString]
                    have harith : 1 + jsize v2 + jsizeFields t ≤ fuel := by
                      simp only [jsizeFields] at hsz
                      have := jsize_pos v
                      omega
                    rw [ihf k2 v2 t lvl l2 (acc ++ [(String.mk k.data, v)]) rest harith]
                    simp [List.append_assoc]
                  · rename_i r heq5
                    injection heq5 with heqc _
                    exact absurd heqc (by decide)
                  · rename_i hm1 hm2
                    exact absurd rfl (hm1 _)
          · rename_i heq3
            exact absurd rfl (heq3 _)

theorem jsize_le_serLen : ∀ n : Nat,
    (∀ v lvl, jsize v ≤ n → jsize v ≤ (serJson lvl v).length) ∧
    (∀ xs lvl, jsizeItems xs ≤ n → jsizeItems xs ≤ (serItems lvl xs).length) ∧
    (∀ kvs lvl, jsizeFields kvs ≤ n → jsizeFields kvs ≤ (serFields lvl kvs).length) := by
  intro n
  induction n with
  | zero =>
      refine ⟨?_, ?_, ?_⟩
      · intro v lvl h
        exact absurd h (by have := jsize_pos v; omega)
      · intro xs lvl h
        cases xs with
        | nil => simp [jsizeItems]
        | cons x t => exact absurd h (by simp [jsizeItems])
      · intro kvs lvl h
        cases kvs with
        | nil => simp [jsizeFields]
        | cons kv t =>
            obtain ⟨k, v⟩ := kv
            exact absurd h (by simp [jsizeFields])
  | succ n ih =>
      obtain ⟨ihv, ihi, ihf⟩ := ih
      refine ⟨?_, ?_, ?_⟩
      · intro v lvl h
        cases v with
        | null => exact (by decide : (1 : Nat) ≤ 4)
        | bool b => cases b
                    · exact (by decide : (1 : Nat) ≤ 5)
                    · exact (by decide : (1 : Nat) ≤ 4)
        | num i =>
            obtain ⟨c, t, hct, _⟩ := serInt_head i
            show jsize (Json.num i) ≤ (serInt i).length
            rw [hct]
            simp [jsize]
        | str s =>
            show (1 : Nat) ≤ ('"' :: (s.data.flatMap escChar ++ ['"'])).length
            simp
        | arr xs =>
            cases xs with
            | nil => exact (by decide : (2 : Nat) ≤ 2)
            | cons x t =>
                have hszx : jsize x ≤ n := by
                  simp only [jsize, jsizeItems] at h
                  omega
                have hszt : jsizeItems t ≤ n := by
                  simp only [jsize, jsizeItems] at h
                  have := jsize_pos x
                  omega
                have h1 := ihv x (lvl + 1) hszx
                have h2 := ihi t (lvl + 1) hszt
                show 2 + (2 + jsize x + jsizeItems t) ≤
                  ((('[' :: '\n' :: ind (lvl + 1)) ++ serJson (lvl + 1) x ++
                    serItems (lvl + 1) t ++ ('\n' :: ind lvl) ++ [']']).length)
                simp only [List.length_append, List.length_cons, List.length_singleton]
                omega
        | obj kvs =>
            cases kvs with
            | nil => exact (by decide : (2 : Nat) ≤ 2)
            | cons kv t =>
                obtain ⟨k, v⟩ := kv
                have hszv : jsize v ≤ n := by
                  simp only [jsize, jsizeFields] at h
                  omega
                have hszt : jsizeFields t ≤ n := by
                  simp only [jsize, jsizeFields] at h
                  have := jsize_pos v
                  omega
                have h1 := ihv v (lvl + 1) hszv
                have h2 := ihf t (lvl + 1) hszt
                show 2 + (2 + jsize v + jsizeFields t) ≤
                  ((('\x7b' :: '\n' :: ind (lvl + 1)) ++ escString k ++
                    (':' :: ' ' :: serJson (lvl + 1) v) ++ serFields (lvl + 1) t ++
                    ('\n' :: ind lvl) ++ ['\x7d']).length)
                simp only [List.length_append, List.length_cons, List.length_singleton]
                omega
      · intro xs lvl h
        cases xs with
        | nil => simp [jsizeItems]
        | cons x t =>
            have hszx : jsize x ≤ n := by
              simp only [jsizeItems] at h
              omega
            have hszt : jsizeItems t ≤ n := by
              simp only [jsizeItems] at h
              have := jsize_pos x
              omega
            have h1 := ihv x lvl hszx
            have h2 := ihi t lvl hszt
            show 2 + jsize x + jsizeItems t ≤
              (((',' :: '\n' :: ind lvl) ++ serJson lvl x ++ serItems lvl t).length)
            simp only [List.length_append, List.length_cons]
            omega
      · intro kvs lvl h
        cases kvs with
        | nil => simp [jsizeFields]
        | cons kv t =>
            obtain ⟨k, v⟩ := kv
            have hszv : jsize v ≤ n := by
              simp only [jsizeFields] at h
              omega
            have hszt : jsizeFields t ≤ n := by
              simp only [jsizeFields] at h
              have := jsize_pos v
              omega
            have h1 := ihv v lvl hszv
            have h2 := ihf t lvl hszt
            show 2 + jsize v + jsizeFields t ≤
              (((',' :: '\n' :: ind lvl) ++ escString k ++
                (':' :: ' ' :: serJson lvl v) ++ serFields lvl t).length)
            simp only [List.length_append, List.length_cons]
            omega

theorem loads_dumps (v : Json) : loads (dumps v) = some v := by
  unfold loads dumps
  have hlen : jsize v ≤ (String.mk (serJson 0 v)).length + 1 := by
    have := (jsize_le_serLen (jsize v)).1 v 0 (Nat.le_refl _)
    show jsize v ≤ (serJson 0 v).length + 1
    omega
  have hs : skipWs (String.mk (serJson 0 v)).data = serJson 0 v ++ [] := by
    show skipWs (serJson 0 v) = serJson 0 v ++ []
    rw [List.append_nil]
    obtain ⟨c, cs, hser, hnws, _, _, _⟩ := serJson_head_spec 0 v
    rw [hser]
    exact skipWs_not_ws_cons _ hnws
  rw [hs,
    (parse_ser ((String.mk (serJson 0 v)).length + 1)).1 v 0 [] hlen
      (fun c hc => Option.noConfusion hc)]
  rfl

theorem pyStrip_dumps (v : Json) : pyStrip (dumps v) = dumps v := by
  obtain ⟨c, cs, hser, _, hnpws, _, _⟩ := serJson_head_spec 0 v
  obtain ⟨cl, hcl, hclw⟩ := serJson_last_spec 0 v
  have h1 : (serJson 0 v).dropWhile pyIsWs = serJson 0 v := by
    rw [hser]
    simp [List.dropWhile_cons, hnpws]
  have h2 : (serJson 0 v).reverse.dropWhile pyIsWs = (serJson 0 v).reverse := by
    cases hrev : (serJson 0 v).reverse with
    | nil => rfl
    | cons a t =>
        have ha : (serJson 0 v).getLast? = some a := by
          rw [← List.head?_reverse, hrev]
          rfl
        rw [hcl] at ha
        injection ha with ha
        rw [List.dropWhile_cons, ← ha, hclw]
        simp
  show String.mk (((serJson 0 v).dropWhile pyIsWs).reverse.dropWhile pyIsWs).reverse =
    String.mk (serJson 0 v)
  rw [h1, h2, List.reverse_reverse]

/-!
## Claim C5
-/

/-- Claim C5: saving a configuration dictionary with `save_configuration`
(`json.dump` with `indent=2`, `ensure_ascii=False`) and loading it back
with `load_configuration` (`json.loads` after `strip()`) returns a
dictionary equal to the one saved, for every configuration dictionary
and path. -/
theorem C5_save_load_roundtrip (kvs : List (String × Json)) (path : String)
    (fs : String → Option String) :
    load_configuration (save_configuration (.obj kvs) path fs) path = .ok (.obj kvs) := by
  have hfs : save_configuration (Json.obj kvs) path fs path =
      some (dumps (Json.obj kvs)) := by
    show (if path = path then some (dumps (Json.obj kvs)) else fs path) =
      some (dumps (Json.obj kvs))
    rw [if_pos rfl]
  unfold load_configuration
  rw [hfs]
  show (if pyStrip (dumps (Json.obj kvs)) = "" then Except.ok (Json.obj [])
    else match loads (pyStrip (dumps (Json.obj kvs))) with
      | some v => Except.ok v
      | none => Except.error ()) = Except.ok (Json.obj kvs)
  rw [pyStrip_dumps]
  have hne : dumps (Json.obj kvs) ≠ "" := by
    obtain ⟨c, cs, hser, _, _, _, _⟩ := serJson_head_spec 0 (Json.obj kvs)
    unfold dumps
    rw [hser]
    intro h
    exact List.noConfusion (congrArg String.data h)
  rw [if_neg hne, loads_dumps]

end SlackSpec
